import Mathlib

/-!
# JNI trace agent: record formatting and the trace file

A shallow embedding of `trace-agent.c` (trace_append_v, mtx_trace_print,
Agent_OnLoad, Agent_OnUnload, __guarantee_fail) and the properties of the
records it writes.

Conventions of the embedding.
* A C string is modelled by its content, the characters before the
  terminating NUL; a `char *` that may be NULL is an `Option`.
* The process state that the functions of this file touch is the `World`:
  the static `trace_file` stream and the static `trace_mtx` mutex.
* A function is a `Proc`: it maps a world to a `Res`, which is a normal
  return, a process exit (with the world at the time of the exit), or
  undefined behaviour of the C program.
* What the file gets from outside (the JNI function table, the JVMTI calls,
  the C library calls that can fail, the marker constant of the missing
  header) is a field of `Host`.
* Threads that call mtx_trace_print at the same time are a `Sys`: the shared
  world and the place of every thread in the function; `thread_step` is one
  step of one thread and `run_schedule` runs the threads in any order.
-/

namespace TraceAgent

/-- A C string by its content (the characters before the terminating NUL). -/
abbrev CStr := List Char

/-- A JNI object handle (jobject, jclass, jstring). -/
abbrev jobject := Nat

/-- A JNI method identifier. -/
abbrev jmethodID := Nat

/-- A JNI integer. -/
abbrev jint := Int

/-- The JNI success code. -/
def JNI_OK : jint := 0

/-- The variadic tail of a call: the `char *` slots in order, `none` being a
NULL slot. -/
abbrev va_list := List (Option CStr)

/-- The state of a stdio stream opened for writing: the strings written to
it so far, oldest first, and whether it is still open. -/
structure FILE where
  written : List CStr
  is_open : Bool
deriving DecidableEq

/-- The bytes of the file behind a stream. -/
def FILE.content (f : FILE) : CStr := f.written.flatten

/-- The state of a pthread mutex as seen by one thread of control. -/
inductive Mutex
  | uninitialized
  | unlocked
  | locked
  | destroyed
deriving DecidableEq

/-- The static variables of trace-agent.c that the modelled functions use. -/
structure World where
  trace_file : Option FILE
  trace_mtx : Mutex
deriving DecidableEq

/-- The result of running a function in a world. -/
inductive Res (α : Type) where
  | ret (a : α) (w : World)
  | exited (status : Nat) (w : World)
  | undefined
deriving DecidableEq

/-- A C function with effects on the world. -/
def Proc (α : Type) : Type := World → Res α

/-- Sequencing of effects: the second part runs only after a normal return. -/
def Proc.bind {α β : Type} (p : Proc α) (f : α → Proc β) : Proc β := fun w =>
  match p w with
  | Res.ret a w1 => f a w1
  | Res.exited s w1 => Res.exited s w1
  | Res.undefined => Res.undefined

/-- A computation without effect. -/
def Proc.pure {α : Type} (a : α) : Proc α := fun w => Res.ret a w

instance : Monad Proc where
  pure := Proc.pure
  bind := Proc.bind

/-- Undefined behaviour of the C program. -/
def undefined_behavior {α : Type} : Proc α := fun _ => Res.undefined

/-- What the agent obtains from outside this file. -/
structure Host where
  /-- The string literal behind the marker constant of trace-agent.h, a
  header that is not among the sources: its characters, none of them NUL, so
  that sizeof of the literal minus one is their number. -/
  TRACE_NEXT_ARG_UNQUOTED_TAG : CStr
  /-- What the C library behind sbuf_printf writes for a NULL argument of a
  `%s` conversion: `some` text where it writes one (glibc writes `(null)`),
  `none` where the call is undefined behaviour. -/
  printf_null : Option CStr
  /-- The JNI function GetObjectClass (NULL is `none`). -/
  GetObjectClass : jobject → Option jobject
  /-- The JNI function CallObjectMethod for an object and a method. -/
  CallObjectMethod : jobject → jmethodID → Option jobject
  /-- The JNI function GetStringUTFChars. -/
  GetStringUTFChars : jobject → Option CStr
  /-- The method identifier cached in java_lang_Class_getName. -/
  java_lang_Class_getName : jmethodID
  /-- Whether GetEnv answers JNI_OK. -/
  GetEnv_ok : Bool
  /-- Whether fopen can open the path for writing. -/
  fopen_ok : CStr → Bool
  /-- Whether pthread_mutex_init succeeds. -/
  mutex_init_ok : Bool
  /-- The value returned by OnLoad_Reflection. -/
  OnLoad_Reflection : CStr → jint
  /-- Whether SetEventCallbacks succeeds. -/
  SetEventCallbacks_ok : Bool
  /-- Whether enabling the VM start notification succeeds. -/
  enable_VM_START_ok : Bool
  /-- Whether enabling the VM init notification succeeds. -/
  enable_VM_INIT_ok : Bool

/-! ## C library -/

/-- The C library function strncmp on string contents: the sign of the
comparison of at most `n` leading characters. -/
def strncmp : CStr → CStr → Nat → Int
  | _, _, 0 => 0
  | [], [], _ + 1 => 0
  | [], _ :: _, _ + 1 => -1
  | _ :: _, [], _ + 1 => 1
  | a :: s, b :: t, n + 1 =>
    if a = b then strncmp s t n else if a < b then -1 else 1

/-- An argument of a printf-style call. -/
inductive FmtArg where
  | str (s : Option CStr)
  | chr (c : Char)
deriving DecidableEq

/-- The text a printf-style format produces: `%s` takes a string argument,
`%c` a character argument, every other character is copied; arguments left
over are ignored. For a NULL string argument the C library writes the text
`null_s` when it has one; without one, and for a missing or ill-typed
argument or another conversion, the result is undefined (`none`). -/
def vformat (null_s : Option CStr) : List Char → List FmtArg → Option CStr
  | [], _ => some []
  | c :: fmt, args =>
    if c = '%' then
      match fmt, args with
      | d :: fmt1, FmtArg.str (some s) :: args1 =>
        if d = 's' then (vformat null_s fmt1 args1).map (fun r => s ++ r) else none
      | d :: fmt1, FmtArg.str none :: args1 =>
        if d = 's' then
          match null_s with
          | some s => (vformat null_s fmt1 args1).map (fun r => s ++ r)
          | none => none
        else none
      | d :: fmt1, FmtArg.chr x :: args1 =>
        if d = 'c' then (vformat null_s fmt1 args1).map (fun r => x :: r) else none
      | _, _ => none
    else (vformat null_s fmt args).map (fun r => c :: r)

/-- The C library function fputs on a stream: the string is appended. Writing
to a closed stream is undefined; write errors of the device are not modelled
and the call returns a positive value. -/
def fputs (s : CStr) (f : FILE) : Option (FILE × Int) :=
  if f.is_open then some ({ f with written := f.written ++ [s] }, 1) else none

/-- The C library function strstr on string contents: the offset of the first
occurrence of the needle, or `none` for a NULL result. -/
def strstr : CStr → CStr → Option Nat
  | [], needle => if needle = [] then some 0 else none
  | c :: s, needle =>
    if needle.isPrefixOf (c :: s) then some 0 else (strstr s needle).map (fun i => i + 1)

/-- The C library function fopen with mode "w": a fresh, empty stream when the
host can open the path, NULL otherwise. -/
def fopen_w (fopen_ok : CStr → Bool) (path : CStr) : Option FILE :=
  if fopen_ok path then some { written := [], is_open := true } else none

/-! ## String builder (sbuf.h) -/

/-- Modelled from the spec: the string builder of sbuf.h, which is not among
the sources; a builder is the text appended to it so far. -/
abbrev sbuf := CStr

/-- Modelled from the spec: sbuf_new of sbuf.h gives an empty buffer. -/
def sbuf_new : sbuf := []

/-- Modelled from the spec: sbuf_printf of sbuf.h appends the formatted text,
growing the buffer as needed and never truncating; `null_s` is what the C
library writes for a NULL string argument. -/
def sbuf_printf (null_s : Option CStr) (e : sbuf) (fmt : String) (args : List FmtArg) :
    Proc sbuf :=
  match vformat null_s fmt.toList args with
  | some t => Proc.pure (e ++ t)
  | none => undefined_behavior

/-- Modelled from the spec: sbuf_as_cstr of sbuf.h is the view of the text. -/
def sbuf_as_cstr (e : sbuf) : CStr := e

/-- Modelled from the spec: sbuf_destroy of sbuf.h releases the storage, which
has no effect on the modelled state. -/
def sbuf_destroy (_e : sbuf) : Proc Unit := Proc.pure ()

/-! ## trace-agent.c -/

/-- The function __guarantee_fail: a diagnostic goes to stderr (not modelled)
and the process exits with status 1. -/
def __guarantee_fail {α : Type} : Proc α := fun w => Res.exited 1 w

/-- Modelled from the spec: the guarantee check of trace-agent.h, which is not
among the sources: a failed condition ends in __guarantee_fail. -/
def guarantee (cond : Bool) : Proc Unit :=
  if cond then Proc.pure () else __guarantee_fail

/-- Modelled from the spec: guarantee on an assignment `(x = call) != NULL`;
the assigned value is passed on. -/
def guarantee_nonnull {α : Type} (v : Option α) : Proc α :=
  match v with
  | some a => Proc.pure a
  | none => __guarantee_fail

/-- The call `fputs(s, trace_file)` on the static stream; a NULL or closed
stream is undefined. -/
def fputs_trace_file (s : CStr) : Proc Int := fun w =>
  match w.trace_file with
  | none => Res.undefined
  | some f =>
    match fputs s f with
    | none => Res.undefined
    | some (f1, r) => Res.ret r { w with trace_file := some f1 }

/-- The call `fclose(trace_file)`. -/
def fclose_trace_file : Proc Unit := fun w =>
  match w.trace_file with
  | none => Res.undefined
  | some f =>
    if f.is_open then Res.ret () { w with trace_file := some { f with is_open := false } }
    else Res.undefined

/-- The call `pthread_mutex_init(&trace_mtx, NULL)`: 0 on success. -/
def pthread_mutex_init (ok : Bool) : Proc Int := fun w =>
  if ok then Res.ret 0 { w with trace_mtx := Mutex.unlocked } else Res.ret 1 w

/-- The call `pthread_mutex_lock(&trace_mtx)`: a free mutex is taken; a mutex
that is not initialized, destroyed, or held already does not give the lock
(a single thread of control never returns from the call; a thread among
several waits, see `thread_step`). -/
def pthread_mutex_lock : Proc Unit := fun w =>
  match w.trace_mtx with
  | Mutex.unlocked => Res.ret () { w with trace_mtx := Mutex.locked }
  | _ => Res.undefined

/-- The call `pthread_mutex_unlock(&trace_mtx)` by the holder. -/
def pthread_mutex_unlock : Proc Unit := fun w =>
  match w.trace_mtx with
  | Mutex.locked => Res.ret () { w with trace_mtx := Mutex.unlocked }
  | _ => Res.undefined

/-- The call `pthread_mutex_destroy(&trace_mtx)`. -/
def pthread_mutex_destroy : Proc Unit := fun w =>
  match w.trace_mtx with
  | Mutex.unlocked => Res.ret () { w with trace_mtx := Mutex.destroyed }
  | _ => Res.undefined

/-- The assignment `trace_file = f`. -/
def set_trace_file (f : Option FILE) : Proc Unit := fun w =>
  Res.ret () { w with trace_file := f }

/-- The function Agent_OnLoad (lines 66-94), for an options string that is
not NULL. -/
def Agent_OnLoad (h : Host) (options : CStr) : Proc jint := do
  guarantee h.GetEnv_ok
  let output_opt : CStr := "output=".toList
  guarantee (strstr options output_opt == some 0)
  let output := options.drop output_opt.length
  let f := fopen_w h.fopen_ok output
  set_trace_file f
  guarantee f.isSome
  let r ← fputs_trace_file "[\n".toList
  guarantee (decide (r > 0))
  let r ← pthread_mutex_init h.mutex_init_ok
  guarantee (r == 0)
  let result := h.OnLoad_Reflection options
  if result != JNI_OK then
    Proc.pure result
  else do
    guarantee h.SetEventCallbacks_ok
    guarantee h.enable_VM_START_ok
    guarantee h.enable_VM_INIT_ok
    Proc.pure JNI_OK

/-- The function Agent_OnUnload (lines 96-100). -/
def Agent_OnUnload : Proc Unit := do
  let _ ← fputs_trace_file "]".toList
  fclose_trace_file
  pthread_mutex_destroy

/-- The function mtx_trace_print (lines 102-106): lock, fputs, unlock. -/
def mtx_trace_print (s : CStr) : Proc Unit := do
  pthread_mutex_lock
  let _ ← fputs_trace_file s
  pthread_mutex_unlock

/-- The test of the loop of trace_append_v: strncmp of the token with the tag
over sizeof(tag) - 1 characters gives 0. -/
def is_unquoted_tag (h : Host) (arg : CStr) : Bool :=
  strncmp arg h.TRACE_NEXT_ARG_UNQUOTED_TAG h.TRACE_NEXT_ARG_UNQUOTED_TAG.length == 0

/-- The body of the do-while loop of trace_append_v (lines 134-144) for one
non-NULL token: the new buffer, separator character and quote_next. -/
def loop_body (h : Host) (arg : CStr) (e : sbuf) (c0 : Char) (quote_next : Bool) :
    Proc (sbuf × Char × Bool) :=
  if is_unquoted_tag h arg then
    Proc.pure (e, c0, false)
  else if quote_next then do
    let e ← sbuf_printf h.printf_null e "%c\"%s\"" [FmtArg.chr c0, FmtArg.str (some arg)]
    Proc.pure (e, ',', quote_next)
  else do
    let e ← sbuf_printf h.printf_null e "%c%s" [FmtArg.chr c0, FmtArg.str (some arg)]
    Proc.pure (e, ',', true)

/-- The do-while loop of trace_append_v (lines 133-146), entered with a
non-NULL `arg`; `args` are the slots not yet read. After the body the next
slot is read with va_arg and the loop goes on while it is not NULL. It gives
the buffer and the slots left after the NULL that ends the loop; reading past
the last slot is undefined. -/
def args_loop (h : Host) :
    CStr → va_list → sbuf → Char → Bool → Proc (sbuf × va_list)
  | arg, [], e, c0, quote_next => do
    let _ ← loop_body h arg e c0 quote_next
    undefined_behavior
  | arg, none :: rest, e, c0, quote_next => do
    let s ← loop_body h arg e c0 quote_next
    Proc.pure (s.1, rest)
  | arg, some arg1 :: rest, e, c0, quote_next => do
    let s ← loop_body h arg e c0 quote_next
    args_loop h arg1 rest s.1 s.2.1 s.2.2

/-- The function trace_append_v (lines 108-152). The result carries the slots
of the va_list that were not read; ReleaseStringUTFChars has no effect on the
modelled state. -/
def trace_append_v (h : Host) (tracer : Option CStr) (clazz : Option jobject)
    (function result : Option CStr) (args : va_list) : Proc va_list := do
  let e := sbuf_new
  let e ← sbuf_printf h.printf_null e "\x7b\"tracer\":\"%s\"" [FmtArg.str tracer]
  let e ← (match function with
    | some _ => sbuf_printf h.printf_null e ", \"function\":\"%s\"" [FmtArg.str function]
    | none => Proc.pure e)
  let e ← (match clazz with
    | some c => do
      let _clazzclass ← guarantee_nonnull (h.GetObjectClass c)
      let class_name ← guarantee_nonnull (h.CallObjectMethod c h.java_lang_Class_getName)
      let class_cname ← guarantee_nonnull (h.GetStringUTFChars class_name)
      sbuf_printf h.printf_null e ", \"class\":\"%s\"" [FmtArg.str (some class_cname)]
    | none => Proc.pure e)
  let e ← (match result with
    | some _ => sbuf_printf h.printf_null e ", \"result\":\"%s\"" [FmtArg.str result]
    | none => Proc.pure e)
  let (e, args) ← (match args with
    | [] => undefined_behavior
    | none :: rest => (Proc.pure (e, rest) : Proc (sbuf × va_list))
    | some arg :: rest => do
      let e ← sbuf_printf h.printf_null e ", \"args\":" [FmtArg.str result]
      let (e, rest) ← args_loop h arg rest e '[' true
      let e ← sbuf_printf h.printf_null e "]" []
      Proc.pure (e, rest))
  let e ← sbuf_printf h.printf_null e "\x7d,\n" []
  mtx_trace_print (sbuf_as_cstr e)
  sbuf_destroy e
  Proc.pure args

/-! ## Vocabulary of the properties -/

/-- The world between load and unload: the stream is open with the given
strings written, the mutex is free. -/
def open_world (written : List CStr) : World :=
  { trace_file := some { written := written, is_open := true }, trace_mtx := Mutex.unlocked }

/-- The content of the trace file after a run that returned, when the stream
has been closed. -/
def closed_file_content {α : Type} (r : Res α) : Option CStr :=
  match r with
  | Res.ret _ w =>
    match w.trace_file with
    | some f => if f.is_open then none else some f.content
    | none => none
  | _ => none

/-- Records appended one after another through mtx_trace_print. -/
def append_all : List CStr → Proc Unit
  | [] => Proc.pure ()
  | r :: rs => do
    mtx_trace_print r
    append_all rs

/-- A token between double quotes. -/
def quoted (t : CStr) : CStr := '"' :: t ++ ['"']

/-- Whether the token before the current one (if there is one) is a marker. -/
def prev_is_mark (mark : CStr → Bool) (p : Option CStr) : Bool :=
  match p with
  | some x => mark x
  | none => false

/-- The argument values of a token list for a given marker test: the tokens
that are not markers, in their order, each verbatim when the token right
before it is a marker and between double quotes otherwise. -/
def arg_values (mark : CStr → Bool) (toks : List CStr) : List CStr :=
  ((List.zip (none :: toks.map some) toks).filter (fun pt => !mark pt.2)).map
    (fun pt => if prev_is_mark mark pt.1 then pt.2 else quoted pt.2)

/-- A bracketed array of values separated by commas without spaces. -/
def args_array (vals : List CStr) : CStr :=
  '[' :: List.intercalate [','] vals ++ [']']

/-- The text written after the args key: the array of the values, and a lone
closing bracket when there is no value. -/
def args_value (vals : List CStr) : CStr :=
  match vals with
  | [] => [']']
  | _ :: _ => args_array vals

/-- The args field of a record: nothing for an empty token list. -/
def args_field (h : Host) (toks : List CStr) : CStr :=
  match toks with
  | [] => []
  | _ :: _ => ", \"args\":".toList ++ args_value (arg_values (is_unquoted_tag h) toks)

/-- An optional string field of a record: nothing when the input is absent. -/
def opt_field (key : String) (v : Option CStr) : CStr :=
  match v with
  | some x => ", \"".toList ++ key.toList ++ "\":\"".toList ++ x ++ "\"".toList
  | none => []

/-- The record up to and including the result field. -/
def record_head (T : CStr) (F C R : Option CStr) : CStr :=
  "\x7b\"tracer\":\"".toList ++ T ++ "\"".toList ++ opt_field "function" F
    ++ opt_field "class" C ++ opt_field "result" R

/-- The class name the three collaborator calls give for a class reference,
`none` when one of them returns NULL. -/
def resolve_class (h : Host) (c : jobject) : Option CStr :=
  match h.GetObjectClass c with
  | none => none
  | some _ =>
    match h.CallObjectMethod c h.java_lang_Class_getName with
    | none => none
    | some class_name => h.GetStringUTFChars class_name

/-- The class name of an optional class reference: `some none` without a
reference, `none` when the resolution fails. -/
def class_name (h : Host) (clazz : Option jobject) : Option (Option CStr) :=
  match clazz with
  | none => some none
  | some c => (resolve_class h c).map some

/-- The values the loop appends, by its quote_next state. -/
def emitted (mark : CStr → Bool) : Bool → List CStr → List CStr
  | _, [] => []
  | q, t :: ts =>
    if mark t then emitted mark false ts
    else (if q then quoted t else t) :: emitted mark true ts

/-- The text the loop appends for a list of values, the first one after the
character `c0` and the others after a comma. -/
def with_seps : Char → List CStr → CStr
  | _, [] => []
  | c0, v :: vs => c0 :: v ++ with_seps ',' vs

/-- A host for the examples: the marker is "#", a NULL string argument is
written as `(null)`, for class handle 0
GetObjectClass gives NULL, for handle 1 the getName call gives NULL, for
handle 2 GetStringUTFChars gives NULL, and every other handle resolves to
java.lang.String. -/
def demo_host : Host :=
  { TRACE_NEXT_ARG_UNQUOTED_TAG := "#".toList
    printf_null := some "(null)".toList
    GetObjectClass := fun c => if c = 0 then none else some 100
    CallObjectMethod := fun c _ => if c = 1 then none else some (200 + c)
    GetStringUTFChars := fun n => if n = 202 then none else some "java.lang.String".toList
    java_lang_Class_getName := 7
    GetEnv_ok := true
    fopen_ok := fun _ => true
    mutex_init_ok := true
    OnLoad_Reflection := fun _ => JNI_OK
    SetEventCallbacks_ok := true
    enable_VM_START_ok := true
    enable_VM_INIT_ok := true }

/-- The world before the agent is loaded. -/
def initial_world : World :=
  { trace_file := none, trace_mtx := Mutex.uninitialized }

/-! ## JSON texts -/

/-- JSON whitespace: spaces, line feeds, carriage returns and tabs. -/
def json_ws (s : CStr) : Bool :=
  s.all (fun c => c == ' ' || c == '\n' || c == '\r' || c == '\t')

/-- A hexadecimal digit. -/
def is_hex (c : Char) : Bool :=
  c.isDigit || (97 ≤ c.toNat && c.toNat ≤ 102) || (65 ≤ c.toNat && c.toNat ≤ 70)

/-- The characters between the quotes of a JSON string: a character other than
the double quote, the backslash and the control characters, or an escape,
which is a backslash followed by one of the quote, backslash, slash, b, f, n,
r, t, or by u and four hexadecimal digits. -/
def json_chars : CStr → Bool
  | [] => true
  | c :: s =>
    if c = '\\' then
      match s with
      | [] => false
      | e :: s1 =>
        if e = 'u' then
          match s1 with
          | a :: b :: x :: d :: s2 =>
            is_hex a && is_hex b && is_hex x && is_hex d && json_chars s2
          | _ => false
        else
          (e == '"' || e == '\\' || e == '/' || e == 'b' || e == 'f' || e == 'n'
            || e == 'r' || e == 't') && json_chars s1
    else c != '"' && decide (32 ≤ c.toNat) && json_chars s

/-- One or more decimal digits. -/
def json_digits (s : CStr) : Bool := !s.isEmpty && s.all Char.isDigit

/-- The exponent part of a JSON number, which may be absent. -/
def json_exp (s : CStr) : Bool :=
  match s with
  | [] => true
  | e :: r =>
    (e == 'e' || e == 'E') &&
      (match r with
        | sign :: r1 => if sign = '+' ∨ sign = '-' then json_digits r1 else json_digits r
        | [] => false)

/-- The fraction and exponent parts of a JSON number, which may be absent. -/
def json_frac_exp (s : CStr) : Bool :=
  match s with
  | [] => true
  | c :: r =>
    if c = '.' then
      let fp := r.takeWhile Char.isDigit
      !fp.isEmpty && json_exp (r.dropWhile Char.isDigit)
    else json_exp s

/-- A JSON number: an optional minus sign, an integer part without leading
zero, an optional fraction and an optional exponent. -/
def json_number (s : CStr) : Bool :=
  let s1 := match s with
    | c :: r => if c = '-' then r else s
    | [] => s
  let ip := s1.takeWhile Char.isDigit
  (ip == ['0'] || (!ip.isEmpty && ip.head? != some '0'))
    && json_frac_exp (s1.dropWhile Char.isDigit)

/-- A JSON string with optional whitespace around it, as the name of a member
of an object. -/
def JsonKey (k : CStr) : Prop :=
  ∃ a s b, json_ws a = true ∧ json_chars s = true ∧ json_ws b = true
    ∧ k = a ++ '"' :: s ++ '"' :: b

/-- The JSON element grammar: a value with optional whitespace around it. -/
inductive JsonValue : CStr → Prop
  | string (s : CStr) : json_chars s = true → JsonValue ('"' :: s ++ ['"'])
  | number (s : CStr) : json_number s = true → JsonValue s
  | literal_true : JsonValue "true".toList
  | literal_false : JsonValue "false".toList
  | literal_null : JsonValue "null".toList
  | empty_array (a : CStr) : json_ws a = true → JsonValue ('[' :: a ++ [']'])
  | array (elems : List CStr) : elems ≠ [] → (∀ e ∈ elems, JsonValue e) →
      JsonValue ('[' :: List.intercalate [','] elems ++ [']'])
  | empty_object (a : CStr) : json_ws a = true → JsonValue ('\x7b' :: a ++ ['\x7d'])
  | object (members : List (CStr × CStr)) : members ≠ [] →
      (∀ m ∈ members, JsonKey m.1) → (∀ m ∈ members, JsonValue m.2) →
      JsonValue ('\x7b' :: List.intercalate [','] (members.map (fun m => m.1 ++ ':' :: m.2))
        ++ ['\x7d'])
  | padded (a v b : CStr) : json_ws a = true → json_ws b = true → JsonValue v →
      JsonValue (a ++ v ++ b)

/-- A JSON object: a JSON value that starts with an opening brace. -/
def JsonObject (s : CStr) : Prop := JsonValue s ∧ s.head? = some '\x7b'

/-- A JSON array of exactly `n` elements, each of them a JSON object with
optional whitespace around it. -/
def JsonArrayOfObjects (n : Nat) (s : CStr) : Prop :=
  (n = 0 ∧ ∃ a, json_ws a = true ∧ s = '[' :: a ++ [']'])
  ∨ ∃ elems : List CStr, elems ≠ [] ∧ elems.length = n
      ∧ (∀ e ∈ elems, ∃ a o b, json_ws a = true ∧ JsonObject o ∧ json_ws b = true
          ∧ e = a ++ o ++ b)
      ∧ s = '[' :: List.intercalate [','] elems ++ [']']

/-- The file content without its final trailing comma, the one before the
newline and the closing bracket. -/
def strip_final_comma (s : CStr) : CStr :=
  match s.reverse with
  | c1 :: c2 :: c3 :: r =>
    if c1 = ']' ∧ c2 = '\n' ∧ c3 = ',' then (c1 :: c2 :: r).reverse else s
  | _ => s

/-- The inputs of one call of trace_append_v, the variadic tail given by its
tokens before the sentinel. -/
structure Call where
  tracer : CStr
  clazz : Option jobject
  function : Option CStr
  result : Option CStr
  toks : List CStr

/-- Calls of trace_append_v made one after another. -/
def run_calls (h : Host) : List Call → Proc Unit
  | [] => Proc.pure ()
  | c :: cs => do
    let _ ← trace_append_v h (some c.tracer) c.clazz c.function c.result
      (c.toks.map some ++ [none])
    run_calls h cs

/-- The text of the JSON object of a call whose class resolves to `C`: the
record without its trailing comma and newline. -/
def call_object (h : Host) (c : Call) (C : Option CStr) : CStr :=
  record_head c.tracer c.function C c.result ++ args_field h c.toks ++ ['\x7d']

/-- The test of the marker as a property of the token text: the token begins
with the marker text. -/
def begins_with_tag (h : Host) (t : CStr) : Bool :=
  decide (h.TRACE_NEXT_ARG_UNQUOTED_TAG <+: t)

/-- The inputs for which the record of a call is JSON although the code does
no escaping: the tracer, the function, the class name, the result and every
token written between quotes are contents of JSON strings as they stand, every
token written verbatim is a JSON value on one line, the class resolves, and a
token list that is not empty has a token that does not begin with the marker
text. -/
def json_safe_call (h : Host) (c : Call) : Prop :=
  json_chars c.tracer = true
  ∧ (∀ F, c.function = some F → json_chars F = true)
  ∧ (∃ C, class_name h c.clazz = some C ∧ ∀ n, C = some n → json_chars n = true)
  ∧ (∀ R, c.result = some R → json_chars R = true)
  ∧ (c.toks = [] ∨ ∃ t ∈ c.toks, begins_with_tag h t = false)
  ∧ (∀ pt ∈ List.zip (none :: c.toks.map some) c.toks, begins_with_tag h pt.2 = false →
      (prev_is_mark (begins_with_tag h) pt.1 = true → JsonValue pt.2 ∧ '\n' ∉ pt.2)
      ∧ (prev_is_mark (begins_with_tag h) pt.1 = false → json_chars pt.2 = true))
/-- The member of a JSON object for an optional string field, the key after a
space. -/
def opt_member (key : String) (v : Option CStr) : List (CStr × CStr) :=
  match v with
  | some x => [(' ' :: quoted key.toList, quoted x)]
  | none => []

/-- The member of a JSON object for the args field of a token list. -/
def args_member (h : Host) (toks : List CStr) : List (CStr × CStr) :=
  match toks with
  | [] => []
  | _ :: _ => [(' ' :: quoted "args".toList, args_value (arg_values (is_unquoted_tag h) toks))]

/-- The class name used for the record of a call. -/
def call_class (h : Host) (c : Call) : Option CStr :=
  (class_name h c.clazz).getD none

/-- The elements of the array in the trace file, given the objects of its
records: every object after a newline, the last one also before a newline. -/
def json_elems : List CStr → List CStr
  | [] => []
  | [o] => ['\n' :: o ++ ['\n']]
  | o :: p :: os => ('\n' :: o) :: json_elems (p :: os)
/-- A call for the examples: tracer jni, function newArray, no class, no
result, and the tokens ok, the marker of the demo host, and 1. -/
def demo_call : Call :=
  Call.mk "jni".toList none (some "newArray".toList) none
    ["ok".toList, "#".toList, "1".toList]

/-! ## Concurrent callers of mtx_trace_print -/

/-- Where a thread stands in its call `mtx_trace_print(s)`: before the lock,
inside fputs with `k` bytes of `s` written, before the unlock, or returned. -/
inductive Pc where
  | at_lock (s : CStr)
  | in_fputs (s : CStr) (k : Nat)
  | at_unlock (s : CStr)
  | returned (s : CStr)
deriving DecidableEq

/-- Threads that run mtx_trace_print at the same time: the shared world, the
place of every thread, and the threads in the order in which they got the
lock. -/
structure Sys where
  world : World
  pcs : List Pc
  order : List Nat
deriving DecidableEq

/-- The bytes of the trace file of a system. -/
def Sys.content (s : Sys) : CStr :=
  match s.world.trace_file with
  | some f => f.content
  | none => []

theorem bind_apply {α β : Type} (p : Proc α) (f : α → Proc β) (w : World) :
    (p >>= f) w = match p w with
      | Res.ret a w1 => f a w1
      | Res.exited s w1 => Res.exited s w1
      | Res.undefined => Res.undefined := rfl

theorem strncmp_tag (t : CStr) : ∀ s : CStr, strncmp s t t.length = 0 ↔ t <+: s := by
  induction t with
  | nil => intro s; simp [strncmp]
  | cons b t ih =>
    intro s
    cases s with
    | nil => simp [strncmp]
    | cons a s =>
      simp only [List.length_cons, strncmp]
      by_cases hab : a = b
      · subst hab
        simp [ih s, List.cons_prefix_cons]
      · have hba : ¬ b = a := fun h => hab h.symm
        simp [hab, hba, List.cons_prefix_cons]
        split <;> simp

theorem is_unquoted_tag_iff (h : Host) (arg : CStr) :
    is_unquoted_tag h arg = true ↔ h.TRACE_NEXT_ARG_UNQUOTED_TAG <+: arg := by
  simp [is_unquoted_tag, strncmp_tag]

theorem printf_quoted (ns : Option CStr) (e arg : CStr) (c0 : Char) (w : World) :
    sbuf_printf ns e "%c\"%s\"" [FmtArg.chr c0, FmtArg.str (some arg)] w
      = Res.ret (e ++ c0 :: '"' :: arg ++ ['"']) w := by
  simp [sbuf_printf, vformat, Proc.pure]

theorem printf_raw (ns : Option CStr) (e arg : CStr) (c0 : Char) (w : World) :
    sbuf_printf ns e "%c%s" [FmtArg.chr c0, FmtArg.str (some arg)] w
      = Res.ret (e ++ c0 :: arg) w := by
  simp [sbuf_printf, vformat, Proc.pure]

theorem loop_body_eq (h : Host) (arg : CStr) (e : sbuf) (c0 : Char) (q : Bool) (w : World) :
    loop_body h arg e c0 q w
      = Res.ret (if is_unquoted_tag h arg then (e, c0, false)
          else (e ++ c0 :: (if q then quoted arg else arg), ',', true)) w := by
  unfold loop_body
  by_cases hm : is_unquoted_tag h arg = true
  · simp [hm, Proc.pure]
  · cases q <;> simp [hm, bind_apply, Proc.pure, printf_quoted, printf_raw, quoted]

theorem args_loop_eq (h : Host) (rest : va_list) (w : World) :
    ∀ (ts : List CStr) (arg : CStr) (e : sbuf) (c0 : Char) (q : Bool),
      args_loop h arg (ts.map some ++ none :: rest) e c0 q w
        = Res.ret (e ++ with_seps c0 (emitted (is_unquoted_tag h) q (arg :: ts)), rest) w := by
  intro ts
  induction ts with
  | nil =>
    intro arg e c0 q
    simp only [List.map_nil, List.nil_append, args_loop, bind_apply, loop_body_eq]
    by_cases hm : is_unquoted_tag h arg = true <;>
      simp [hm, Proc.pure, emitted, with_seps]
  | cons t ts ih =>
    intro arg e c0 q
    show args_loop h arg (some t :: (ts.map some ++ none :: rest)) e c0 q w = _
    rw [args_loop]
    simp only [bind_apply, loop_body_eq]
    rw [ih]
    by_cases hm : is_unquoted_tag h arg = true
    · simp [hm, emitted]
    · simp only [hm]
      simp [emitted, with_seps, hm]
theorem printf_tracer (ns : Option CStr) (e T : CStr) (w : World) :
    sbuf_printf ns e "\x7b\"tracer\":\"%s\"" [FmtArg.str (some T)] w
      = Res.ret (e ++ "\x7b\"tracer\":\"".toList ++ T ++ "\"".toList) w := by
  simp [sbuf_printf, vformat, Proc.pure]

theorem printf_function (ns : Option CStr) (e : CStr) (F : Option CStr) (w : World) :
    (match F with
      | some _ => sbuf_printf ns e ", \"function\":\"%s\"" [FmtArg.str F]
      | none => Proc.pure e) w = Res.ret (e ++ opt_field "function" F) w := by
  cases F <;> simp [sbuf_printf, vformat, Proc.pure, opt_field]

theorem printf_result (ns : Option CStr) (e : CStr) (R : Option CStr) (w : World) :
    (match R with
      | some _ => sbuf_printf ns e ", \"result\":\"%s\"" [FmtArg.str R]
      | none => Proc.pure e) w = Res.ret (e ++ opt_field "result" R) w := by
  cases R <;> simp [sbuf_printf, vformat, Proc.pure, opt_field]

theorem printf_class (ns : Option CStr) (e C : CStr) (w : World) :
    sbuf_printf ns e ", \"class\":\"%s\"" [FmtArg.str (some C)] w
      = Res.ret (e ++ opt_field "class" (some C)) w := by
  simp [sbuf_printf, vformat, Proc.pure, opt_field]

theorem printf_args_key (ns : Option CStr) (e : CStr) (x : Option CStr) (w : World) :
    sbuf_printf ns e ", \"args\":" [FmtArg.str x] w = Res.ret (e ++ ", \"args\":".toList) w := by
  cases x <;> simp [sbuf_printf, vformat, Proc.pure]

theorem printf_close_array (ns : Option CStr) (e : CStr) (w : World) :
    sbuf_printf ns e "]" [] w = Res.ret (e ++ "]".toList) w := by
  simp [sbuf_printf, vformat, Proc.pure]

theorem printf_close_record (ns : Option CStr) (e : CStr) (w : World) :
    sbuf_printf ns e "\x7d,\n" [] w = Res.ret (e ++ "\x7d,\n".toList) w := by
  simp [sbuf_printf, vformat, Proc.pure]

theorem mtx_trace_print_open (s : CStr) (written : List CStr) :
    mtx_trace_print s (open_world written) = Res.ret () (open_world (written ++ [s])) := by
  simp [mtx_trace_print, bind_apply, pthread_mutex_lock, fputs_trace_file, pthread_mutex_unlock,
    open_world, fputs]

theorem class_block_eq (h : Host) (e : sbuf) (clazz : Option jobject) (w : World) :
    (match clazz with
      | some c => do
        let _clazzclass ← guarantee_nonnull (h.GetObjectClass c)
        let class_name ← guarantee_nonnull (h.CallObjectMethod c h.java_lang_Class_getName)
        let class_cname ← guarantee_nonnull (h.GetStringUTFChars class_name)
        sbuf_printf h.printf_null e ", \"class\":\"%s\"" [FmtArg.str (some class_cname)]
      | none => Proc.pure e) w
      = match class_name h clazz with
        | some C => Res.ret (e ++ opt_field "class" C) w
        | none => Res.exited 1 w := by
  cases clazz with
  | none => simp [class_name, Proc.pure, opt_field]
  | some c =>
    simp only [class_name, resolve_class, bind_apply]
    cases h1 : h.GetObjectClass c with
    | none => simp [guarantee_nonnull, __guarantee_fail]
    | some cc =>
      cases h2 : h.CallObjectMethod c h.java_lang_Class_getName with
      | none => simp [guarantee_nonnull, __guarantee_fail, Proc.pure]
      | some n =>
        cases h3 : h.GetStringUTFChars n with
        | none => simp [guarantee_nonnull, __guarantee_fail, Proc.pure, h3]
        | some C => simp [guarantee_nonnull, Proc.pure, printf_class, h3]

theorem with_seps_cons (c : Char) (v : CStr) (vs : List CStr) :
    with_seps c (v :: vs) = c :: List.intercalate [','] (v :: vs) := by
  induction vs generalizing c v with
  | nil => simp [with_seps, List.intercalate]
  | cons u us ih =>
    rw [with_seps, ih]
    simp [List.intercalate]

theorem emitted_zip (mark : CStr → Bool) (toks : List CStr) (p : Option CStr) :
    emitted mark (!prev_is_mark mark p) toks
      = ((List.zip (p :: toks.map some) toks).filter (fun pt => !mark pt.2)).map
          (fun pt => if prev_is_mark mark pt.1 then pt.2 else quoted pt.2) := by
  induction toks generalizing p with
  | nil => simp [emitted]
  | cons t ts ih =>
    have ih1 : emitted mark (!mark t) ts = _ := ih (some t)
    by_cases hm : mark t = true
    · rw [hm] at ih1
      simp only [Bool.not_true] at ih1
      simp [emitted, hm, ih1]
    · simp only [Bool.not_eq_true] at hm
      rw [hm] at ih1
      simp only [Bool.not_false] at ih1
      cases hp : prev_is_mark mark p <;> simp [emitted, hm, ih1, hp]

theorem arg_values_eq_emitted (mark : CStr → Bool) (toks : List CStr) :
    arg_values mark toks = emitted mark true toks := by
  have h := emitted_zip mark toks none
  simpa [prev_is_mark, arg_values] using h.symm

theorem emitted_congr (m1 m2 : CStr → Bool) (toks : List CStr) (q : Bool)
    (hm : ∀ t ∈ toks, m1 t = m2 t) : emitted m1 q toks = emitted m2 q toks := by
  induction toks generalizing q with
  | nil => simp [emitted]
  | cons t ts ih =>
    have ht : m1 t = m2 t := hm t (List.mem_cons_self t ts)
    have hts : ∀ u ∈ ts, m1 u = m2 u := fun u hu => hm u (List.mem_cons_of_mem t hu)
    simp [emitted, ht, ih _ hts]

theorem arg_values_congr (m1 m2 : CStr → Bool) (toks : List CStr)
    (hm : ∀ t ∈ toks, m1 t = m2 t) : arg_values m1 toks = arg_values m2 toks := by
  rw [arg_values_eq_emitted, arg_values_eq_emitted, emitted_congr m1 m2 toks true hm]

theorem emitted_ne_nil (mark : CStr → Bool) (toks : List CStr) (q : Bool)
    (hex : ∃ t ∈ toks, mark t = false) : emitted mark q toks ≠ [] := by
  induction toks generalizing q with
  | nil => simp at hex
  | cons t ts ih =>
    by_cases hm : mark t = true
    · have hex1 : ∃ u ∈ ts, mark u = false := by
        obtain ⟨u, hu, hmu⟩ := hex
        rcases List.mem_cons.mp hu with rfl | hu1
        · simp [hm] at hmu
        · exact ⟨u, hu1, hmu⟩
      simp [emitted, hm, ih _ hex1]
    · simp [emitted, hm]

theorem emitted_eq_nil (mark : CStr → Bool) (toks : List CStr) (q : Bool)
    (hall : ∀ t ∈ toks, mark t = true) : emitted mark q toks = [] := by
  induction toks generalizing q with
  | nil => simp [emitted]
  | cons t ts ih =>
    have ht : mark t = true := hall t (List.mem_cons_self t ts)
    have hts : ∀ u ∈ ts, mark u = true := fun u hu => hall u (List.mem_cons_of_mem t hu)
    simp [emitted, ht, ih _ hts]

theorem args_value_of_ne_nil (vals : List CStr) (hv : vals ≠ []) :
    args_value vals = args_array vals := by
  cases vals with
  | nil => exact absurd rfl hv
  | cons v vs => rfl

theorem loop_text_eq (mark : CStr → Bool) (toks : List CStr) :
    with_seps '[' (emitted mark true toks) ++ [']'] = args_value (arg_values mark toks) := by
  rw [arg_values_eq_emitted]
  cases hv : emitted mark true toks with
  | nil => simp [with_seps, args_value]
  | cons v vs => simp [with_seps_cons, args_value, args_array]

theorem trace_append_v_eq (h : Host) (T : CStr) (clazz : Option jobject) (F R : Option CStr)
    (toks : List CStr) (rest : va_list) (written : List CStr) :
    trace_append_v h (some T) clazz F R (toks.map some ++ none :: rest) (open_world written)
      = match class_name h clazz with
        | some C => Res.ret rest (open_world (written ++
            [record_head T F C R ++ args_field h toks ++ "\x7d,\n".toList]))
        | none => Res.exited 1 (open_world written) := by
  unfold trace_append_v
  simp only [bind_apply, sbuf_new, printf_tracer, printf_function, class_block_eq]
  cases hc : class_name h clazz with
  | none => simp
  | some C =>
    cases toks with
    | nil =>
      simp [bind_apply, printf_result, printf_close_record, sbuf_as_cstr, sbuf_destroy,
        mtx_trace_print_open, Proc.pure, record_head, args_field]
    | cons t ts =>
      have hl := loop_text_eq (is_unquoted_tag h) (t :: ts)
      simp only [List.append_assoc] at hl
      simp [bind_apply, printf_result, printf_close_record, sbuf_as_cstr, sbuf_destroy,
        printf_args_key, args_loop_eq, printf_close_array, mtx_trace_print_open, Proc.pure,
        record_head, args_field, ← hl]

theorem trace_append_v_class_fails (h : Host) (T : CStr) (clazz : Option jobject)
    (F R : Option CStr) (args : va_list) (w : World) (hc : class_name h clazz = none) :
    trace_append_v h (some T) clazz F R args w = Res.exited 1 w := by
  unfold trace_append_v
  simp only [bind_apply, sbuf_new, printf_tracer, printf_function, class_block_eq, hc]

theorem printf_tracer_null (N e : CStr) (w : World) :
    sbuf_printf (some N) e "\x7b\"tracer\":\"%s\"" [FmtArg.str none] w
      = Res.ret (e ++ "\x7b\"tracer\":\"".toList ++ N ++ "\"".toList) w := by
  simp [sbuf_printf, vformat, Proc.pure]

theorem trace_append_v_null_tracer (h : Host) (N : CStr) (clazz : Option jobject)
    (F R : Option CStr) (args : va_list) (w : World) (hnull : h.printf_null = some N) :
    trace_append_v h none clazz F R args w = trace_append_v h (some N) clazz F R args w := by
  unfold trace_append_v
  simp only [bind_apply, hnull, printf_tracer, printf_tracer_null]

theorem append_all_open (rs : List CStr) (written : List CStr) :
    append_all rs (open_world written) = Res.ret () (open_world (written ++ rs)) := by
  induction rs generalizing written with
  | nil => simp [append_all, Proc.pure]
  | cons r rs ih =>
    rw [append_all, bind_apply, mtx_trace_print_open]
    simp [ih]

theorem Agent_OnUnload_open (written : List CStr) :
    Agent_OnUnload (open_world written)
      = Res.ret () { trace_file := some { written := written ++ ["]".toList], is_open := false },
                     trace_mtx := Mutex.destroyed } := by
  simp [Agent_OnUnload, bind_apply, fputs_trace_file, fputs, fclose_trace_file,
    pthread_mutex_destroy, open_world]

theorem guarantee_bind_ret {α : Type} (c : Bool) (f : Unit → Proc α) (w w1 : World) (r : α)
    (hr : (guarantee c >>= f) w = Res.ret r w1) : c = true ∧ f () w = Res.ret r w1 := by
  cases c with
  | false => simp [bind_apply, guarantee, __guarantee_fail] at hr
  | true => simpa [bind_apply, guarantee, Proc.pure] using hr

theorem bind_ret_inv {α β : Type} (p : Proc α) (f : α → Proc β) (w w1 : World) (r : β)
    (hr : (p >>= f) w = Res.ret r w1) : ∃ a w2, p w = Res.ret a w2 ∧ f a w2 = Res.ret r w1 := by
  rw [bind_apply] at hr
  cases hp : p w with
  | ret a w2 => rw [hp] at hr; exact ⟨a, w2, rfl, hr⟩
  | exited s w2 => rw [hp] at hr; cases hr
  | undefined => rw [hp] at hr; cases hr

theorem Agent_OnLoad_world (h : Host) (options : CStr) (w0 w1 : World) (r : jint)
    (hl : Agent_OnLoad h options w0 = Res.ret r w1) : w1 = open_world ["[\n".toList] := by
  unfold Agent_OnLoad at hl
  obtain ⟨_, hl⟩ := guarantee_bind_ret _ _ _ _ _ hl
  obtain ⟨_, hl⟩ := guarantee_bind_ret _ _ _ _ _ hl
  obtain ⟨_, wa, hp, hl⟩ := bind_ret_inv _ _ _ _ _ hl
  obtain ⟨hf, hl⟩ := guarantee_bind_ret _ _ _ _ _ hl
  obtain ⟨r1, wb, hq, hl⟩ := bind_ret_inv _ _ _ _ _ hl
  obtain ⟨_, hl⟩ := guarantee_bind_ret _ _ _ _ _ hl
  obtain ⟨r2, wc, hm, hl⟩ := bind_ret_inv _ _ _ _ _ hl
  obtain ⟨hr2, hl⟩ := guarantee_bind_ret _ _ _ _ _ hl
  have hwc : wc = open_world ["[\n".toList] := by
    simp only [set_trace_file, Res.ret.injEq, true_and] at hp
    subst hp
    cases hfo : fopen_w h.fopen_ok (List.drop "output=".toList.length options) with
    | none => rw [hfo] at hf; simp at hf
    | some f =>
      have hfv : f = { written := [], is_open := true } := by
        unfold fopen_w at hfo
        split at hfo
        · exact (Option.some.inj hfo).symm
        · cases hfo
      subst hfv
      simp only [fputs_trace_file, hfo, fputs, if_true, Res.ret.injEq] at hq
      obtain ⟨_, hwb⟩ := hq
      subst hwb
      unfold pthread_mutex_init at hm
      split at hm
      · simp only [Res.ret.injEq] at hm
        rw [← hm.2]; rfl
      · simp only [Res.ret.injEq] at hm
        rw [← hm.1] at hr2
        simp at hr2
  subst hwc
  dsimp only at hl
  split at hl
  · simp only [Proc.pure, Res.ret.injEq] at hl
    exact hl.2.symm
  · obtain ⟨_, hl⟩ := guarantee_bind_ret _ _ _ _ _ hl
    obtain ⟨_, hl⟩ := guarantee_bind_ret _ _ _ _ _ hl
    obtain ⟨_, hl⟩ := guarantee_bind_ret _ _ _ _ _ hl
    simp only [Proc.pure, Res.ret.injEq] at hl
    exact hl.2.symm

theorem trace_append_v_array (h : Host) (T : CStr) (clazz : Option jobject)
    (C F R : Option CStr) (toks : List CStr) (rest : va_list) (written : List CStr)
    (mark : CStr → Bool) (hclass : class_name h clazz = some C)
    (hm : ∀ t ∈ toks, is_unquoted_tag h t = mark t) (hsome : ∃ t ∈ toks, mark t = false) :
    trace_append_v h (some T) clazz F R (toks.map some ++ none :: rest) (open_world written)
      = Res.ret rest (open_world (written ++ [record_head T F C R ++ ", \"args\":".toList
          ++ args_array (arg_values mark toks) ++ "\x7d,\n".toList])) := by
  have hne : arg_values mark toks ≠ [] := by
    rw [arg_values_eq_emitted]
    exact emitted_ne_nil mark toks true hsome
  rw [trace_append_v_eq, hclass]
  cases toks with
  | nil => simp at hsome
  | cons t ts =>
    simp only [args_field]
    rw [arg_values_congr _ _ _ hm, args_value_of_ne_nil _ hne]
    simp

theorem is_unquoted_tag_eq_decide (h : Host) (t : CStr) :
    is_unquoted_tag h t = decide (h.TRACE_NEXT_ARG_UNQUOTED_TAG <+: t) := by
  by_cases hp : h.TRACE_NEXT_ARG_UNQUOTED_TAG <+: t
  · simp [hp, (is_unquoted_tag_iff h t).mpr hp]
  · have h1 : is_unquoted_tag h t ≠ true := fun hc => hp ((is_unquoted_tag_iff h t).mp hc)
    simp [hp, h1]

theorem closed_content_after_unload (written : List CStr) :
    closed_file_content (Agent_OnUnload (open_world written))
      = some (written.flatten ++ "]".toList) := by
  rw [Agent_OnUnload_open]
  simp [closed_file_content, FILE.content]

/-! ## Lemmas on JSON texts -/

theorem is_hex_ne_newline (c : Char) (hc : is_hex c = true) : c ≠ '\n' := by
  rintro rfl
  revert hc
  decide

theorem json_chars_one_line_aux (n : Nat) :
    ∀ s : CStr, s.length ≤ n → json_chars s = true → '\n' ∉ s := by
  induction n with
  | zero =>
    intro s hs _
    have : s = [] := List.length_eq_zero.mp (Nat.le_zero.mp hs)
    simp [this]
  | succ n ih =>
    intro s hs hj
    cases s with
    | nil => simp
    | cons c s =>
      unfold json_chars at hj
      split at hj
      · rename_i hc
        subst hc
        cases s with
        | nil => simp at hj
        | cons e s1 =>
          simp only at hj
          split at hj
          · rename_i he
            subst he
            match s1, hj, hs with
            | a :: b :: x :: d :: s2, hj, hs =>
              simp only [Bool.and_eq_true] at hj
              obtain ⟨⟨⟨⟨ha, hb⟩, hx⟩, hd⟩, hrest⟩ := hj
              have hlen : s2.length ≤ n := by simp only [List.length_cons] at hs; omega
              have h0 := ih s2 hlen hrest
              have h1 := (is_hex_ne_newline a ha).symm
              have h2 := (is_hex_ne_newline b hb).symm
              have h3 := (is_hex_ne_newline x hx).symm
              have h4 := (is_hex_ne_newline d hd).symm
              simp only [List.mem_cons, not_or]
              exact ⟨by decide, by decide, h1, h2, h3, h4, h0⟩
            | [], hj, _ => simp at hj
            | [_], hj, _ => simp at hj
            | [_, _], hj, _ => simp at hj
            | [_, _, _], hj, _ => simp at hj
          · simp only [Bool.and_eq_true] at hj
            have hlen : s1.length ≤ n := by simp only [List.length_cons] at hs; omega
            have h1 := ih s1 hlen hj.2
            have he : e ≠ '\n' := by
              rintro rfl
              have := hj.1
              revert this
              decide
            simp only [List.mem_cons, not_or]
            exact ⟨by decide, fun hh => he hh.symm, h1⟩
      · simp only [Bool.and_eq_true, decide_eq_true_eq] at hj
        have hlen : s.length ≤ n := by simp only [List.length_cons] at hs; omega
        have h1 := ih s hlen hj.2
        have hc : c ≠ '\n' := by
          rintro rfl
          have := hj.1.2
          revert this
          decide
        simp only [List.mem_cons, not_or]
        exact ⟨fun hh => hc hh.symm, h1⟩

theorem json_chars_one_line (s : CStr) (hj : json_chars s = true) : '\n' ∉ s :=
  json_chars_one_line_aux s.length s (Nat.le_refl _) hj

theorem intercalate_single (c : Char) (x : CStr) : List.intercalate [c] [x] = x := by
  simp [List.intercalate]

theorem intercalate_cons_cons (c : Char) (x y : CStr) (ys : List CStr) :
    List.intercalate [c] (x :: y :: ys) = x ++ c :: List.intercalate [c] (y :: ys) := by
  simp [List.intercalate]

theorem intercalate_cons_eq (c : Char) (x : CStr) (xs : List CStr) :
    List.intercalate [c] (x :: xs) = x ++ (xs.map (fun y => c :: y)).flatten := by
  induction xs generalizing x with
  | nil => simp [intercalate_single]
  | cons y ys ih => rw [intercalate_cons_cons, ih y]; simp

theorem mem_intercalate (c d : Char) (xs : List CStr) (hd : d ∈ List.intercalate [c] xs) :
    d = c ∨ ∃ x ∈ xs, d ∈ x := by
  cases xs with
  | nil => simp [List.intercalate] at hd
  | cons x xs =>
    rw [intercalate_cons_eq] at hd
    simp only [List.mem_append, List.mem_flatten, List.mem_map] at hd
    rcases hd with hx | ⟨l, ⟨y, hy, rfl⟩, hdl⟩
    · exact Or.inr ⟨x, List.mem_cons_self _ _, hx⟩
    · rcases List.mem_cons.mp hdl with rfl | hdy
      · exact Or.inl rfl
      · exact Or.inr ⟨y, List.mem_cons_of_mem _ hy, hdy⟩

theorem opt_field_eq_member (key : String) (v : Option CStr) :
    opt_field key v
      = ((opt_member key v).map (fun m => ',' :: (m.1 ++ ':' :: m.2))).flatten := by
  cases v <;> simp [opt_field, opt_member, quoted]

theorem args_field_eq_member (h : Host) (toks : List CStr) :
    args_field h toks
      = ((args_member h toks).map (fun m => ',' :: (m.1 ++ ':' :: m.2))).flatten := by
  cases toks <;> simp [args_field, args_member, quoted]

theorem json_object_of_members (T : CStr) (rest : List (CStr × CStr))
    (hT : json_chars T = true) (hk : ∀ m ∈ rest, JsonKey m.1) (hv : ∀ m ∈ rest, JsonValue m.2) :
    JsonObject ("\x7b\"tracer\":\"".toList ++ T ++ "\"".toList
      ++ (rest.map (fun m => ',' :: (m.1 ++ ':' :: m.2))).flatten ++ ['\x7d']) := by
  have hobj := JsonValue.object ((quoted "tracer".toList, quoted T) :: rest) (by simp)
    (by
      intro m hm
      rcases List.mem_cons.mp hm with rfl | hm1
      · exact ⟨[], "tracer".toList, [], by decide, by decide, by decide, by simp [quoted]⟩
      · exact hk m hm1)
    (by
      intro m hm
      rcases List.mem_cons.mp hm with rfl | hm1
      · exact JsonValue.string T hT
      · exact hv m hm1)
  rw [List.map_cons, intercalate_cons_eq] at hobj
  constructor
  · have heq : "\x7b\"tracer\":\"".toList ++ T ++ "\"".toList
        ++ (rest.map (fun m => ',' :: (m.1 ++ ':' :: m.2))).flatten ++ ['\x7d']
        = '\x7b' :: ((quoted "tracer".toList ++ ':' :: quoted T)
          ++ ((rest.map (fun m => m.1 ++ ':' :: m.2)).map (fun y => ',' :: y)).flatten)
          ++ ['\x7d'] := by
      simp [quoted, List.map_map, Function.comp_def]
    rw [heq]
    exact hobj
  · rfl

theorem json_key_of_literal (key : String) (hkey : json_chars key.toList = true) :
    JsonKey (' ' :: quoted key.toList) :=
  ⟨[' '], key.toList, [], by decide, hkey, by decide, by simp [quoted]⟩

theorem is_unquoted_tag_eq_begins (h : Host) : is_unquoted_tag h = begins_with_tag h :=
  funext (fun t => is_unquoted_tag_eq_decide h t)

theorem quoted_one_line (t : CStr) (ht : '\n' ∉ t) : '\n' ∉ quoted t := by
  simp only [quoted, List.mem_cons, List.mem_append, List.mem_singleton, not_or]
  exact ⟨⟨by decide, ht⟩, by decide⟩

theorem arg_values_json (h : Host) (toks : List CStr)
    (hz : ∀ pt ∈ List.zip (none :: toks.map some) toks, begins_with_tag h pt.2 = false →
      (prev_is_mark (begins_with_tag h) pt.1 = true → JsonValue pt.2 ∧ '\n' ∉ pt.2)
      ∧ (prev_is_mark (begins_with_tag h) pt.1 = false → json_chars pt.2 = true)) :
    ∀ v ∈ arg_values (is_unquoted_tag h) toks, JsonValue v ∧ '\n' ∉ v := by
  intro v hv
  rw [is_unquoted_tag_eq_begins] at hv
  simp only [arg_values, List.mem_map, List.mem_filter] at hv
  obtain ⟨pt, ⟨hpt, hnm⟩, rfl⟩ := hv
  have hnm1 : begins_with_tag h pt.2 = false := by simpa using hnm
  obtain ⟨hraw, hq⟩ := hz pt hpt hnm1
  cases hp : prev_is_mark (begins_with_tag h) pt.1 with
  | true => simpa using hraw hp
  | false =>
    have hj := hq hp
    simp only [Bool.false_eq_true, if_false]
    exact ⟨JsonValue.string _ hj, quoted_one_line _ (json_chars_one_line _ hj)⟩

theorem args_array_one_line (vals : List CStr) (hv : ∀ v ∈ vals, '\n' ∉ v) :
    '\n' ∉ args_array vals := by
  intro hmem
  simp only [args_array, List.mem_cons, List.mem_append, List.mem_singleton] at hmem
  rcases hmem with (hc | hin) | hc
  · revert hc; decide
  · rcases mem_intercalate _ _ _ hin with hc | ⟨x, hx, hnx⟩
    · revert hc; decide
    · exact hv x hx hnx
  · revert hc; decide

theorem opt_field_one_line (key : String) (v : Option CStr) (hkey : '\n' ∉ key.toList)
    (hv : ∀ x, v = some x → '\n' ∉ x) : '\n' ∉ opt_field key v := by
  cases v with
  | none => simp [opt_field]
  | some x =>
    have hx := hv x rfl
    simp only [opt_field, List.mem_append, not_or]
    exact ⟨⟨⟨⟨by decide, hkey⟩, by decide⟩, hx⟩, by decide⟩

theorem call_object_json (h : Host) (c : Call) (hs : json_safe_call h c) :
    JsonObject (call_object h c (call_class h c)) ∧ '\n' ∉ call_object h c (call_class h c) := by
  obtain ⟨hT, hF, ⟨C, hC, hCn⟩, hR, hne, hz⟩ := hs
  have hcc : call_class h c = C := by simp [call_class, hC]
  rw [hcc]
  have hvals := arg_values_json h c.toks hz
  have hnonempty : c.toks ≠ [] → arg_values (is_unquoted_tag h) c.toks ≠ [] := by
    intro hnil
    rcases hne with he | ⟨t, ht, hm⟩
    · exact absurd he hnil
    · rw [arg_values_eq_emitted, is_unquoted_tag_eq_begins]
      exact emitted_ne_nil _ _ _ ⟨t, ht, hm⟩
  constructor
  · have hform : call_object h c C = "\x7b\"tracer\":\"".toList ++ c.tracer ++ "\"".toList
        ++ ((opt_member "function" c.function ++ opt_member "class" C
              ++ opt_member "result" c.result ++ args_member h c.toks).map
            (fun m => ',' :: (m.1 ++ ':' :: m.2))).flatten ++ ['\x7d'] := by
      simp only [call_object, record_head, opt_field_eq_member, args_field_eq_member,
        List.map_append, List.flatten_append, List.append_assoc]
    rw [hform]
    apply json_object_of_members _ _ hT
    · intro m hm
      simp only [List.mem_append] at hm
      rcases hm with ((hm | hm) | hm) | hm
      · cases hf : c.function with
        | none => simp [hf, opt_member] at hm
        | some x =>
          simp only [hf, opt_member, List.mem_singleton] at hm
          subst hm
          exact json_key_of_literal "function" (by decide)
      · cases C with
        | none => simp [opt_member] at hm
        | some x =>
          simp only [opt_member, List.mem_singleton] at hm
          subst hm
          exact json_key_of_literal "class" (by decide)
      · cases hf : c.result with
        | none => simp [hf, opt_member] at hm
        | some x =>
          simp only [hf, opt_member, List.mem_singleton] at hm
          subst hm
          exact json_key_of_literal "result" (by decide)
      · cases ht : c.toks with
        | nil => simp [ht, args_member] at hm
        | cons t ts =>
          simp only [ht, args_member, List.mem_singleton] at hm
          subst hm
          exact json_key_of_literal "args" (by decide)
    · intro m hm
      simp only [List.mem_append] at hm
      rcases hm with ((hm | hm) | hm) | hm
      · cases hf : c.function with
        | none => simp [hf, opt_member] at hm
        | some x =>
          simp only [hf, opt_member, List.mem_singleton] at hm
          subst hm
          exact JsonValue.string x (hF x hf)
      · cases C with
        | none => simp [opt_member] at hm
        | some x =>
          simp only [opt_member, List.mem_singleton] at hm
          subst hm
          exact JsonValue.string x (hCn x rfl)
      · cases hf : c.result with
        | none => simp [hf, opt_member] at hm
        | some x =>
          simp only [hf, opt_member, List.mem_singleton] at hm
          subst hm
          exact JsonValue.string x (hR x hf)
      · cases ht : c.toks with
        | nil => simp [ht, args_member] at hm
        | cons t ts =>
          have hne1 := hnonempty (by simp [ht])
          rw [ht] at hne1 hvals
          simp only [ht, args_member, List.mem_singleton] at hm
          subst hm
          simp only
          rw [args_value_of_ne_nil _ hne1]
          exact JsonValue.array _ hne1 (fun e he => (hvals e he).1)
  · have h1 := json_chars_one_line _ hT
    have h2 := opt_field_one_line "function" c.function (by decide)
      (fun x hx => json_chars_one_line _ (hF x hx))
    have h3 := opt_field_one_line "class" C (by decide)
      (fun x hx => json_chars_one_line _ (hCn x hx))
    have h4 := opt_field_one_line "result" c.result (by decide)
      (fun x hx => json_chars_one_line _ (hR x hx))
    have h5 : '\n' ∉ args_field h c.toks := by
      cases ht : c.toks with
      | nil => simp [args_field]
      | cons t ts =>
        have hne1 := hnonempty (by simp [ht])
        rw [ht] at hne1 hvals
        simp only [args_field]
        rw [args_value_of_ne_nil _ hne1]
        have h6 := args_array_one_line _ (fun v hv => (hvals v hv).2)
        simp only [List.mem_append, not_or]
        exact ⟨by decide, h6⟩
    simp only [call_object, record_head, List.mem_append, List.mem_singleton, not_or]
    exact ⟨⟨⟨⟨⟨⟨⟨by decide, h1⟩, by decide⟩, h2⟩, h3⟩, h4⟩, h5⟩, by decide⟩

theorem run_calls_open (h : Host) (calls : List Call) (written : List CStr)
    (hs : ∀ c ∈ calls, ∃ C, class_name h c.clazz = some C) :
    run_calls h calls (open_world written)
      = Res.ret () (open_world (written
          ++ calls.map (fun c => call_object h c (call_class h c) ++ ",\n".toList))) := by
  induction calls generalizing written with
  | nil => simp [run_calls, Proc.pure]
  | cons c cs ih =>
    obtain ⟨C, hC⟩ := hs c (List.mem_cons_self _ _)
    have hcs : ∀ d ∈ cs, ∃ C, class_name h d.clazz = some C :=
      fun d hd => hs d (List.mem_cons_of_mem _ hd)
    have hcc : call_class h c = C := by simp [call_class, hC]
    rw [run_calls, bind_apply, trace_append_v_eq, hC]
    simp only
    rw [ih _ hcs]
    simp [call_object, hcc]

theorem strip_final_comma_append (y : CStr) :
    strip_final_comma (y ++ [',', '\n', ']']) = y ++ ['\n', ']'] := by
  simp [strip_final_comma]

theorem intercalate_cons_of_ne_nil (c : Char) (x : CStr) (xs : List CStr) (hx : xs ≠ []) :
    List.intercalate [c] (x :: xs) = x ++ c :: List.intercalate [c] xs := by
  cases xs with
  | nil => exact absurd rfl hx
  | cons y ys => exact intercalate_cons_cons c x y ys

theorem records_flatten (o : CStr) (os : List CStr) :
    '\n' :: ((o :: os).map (fun x => x ++ ",\n".toList)).flatten
      = List.intercalate [','] ((o :: os).map (fun x => '\n' :: x)) ++ [',', '\n'] := by
  induction os generalizing o with
  | nil => simp [intercalate_single]
  | cons p ps ih =>
    have ih1 := ih p
    have e1 : List.intercalate [','] ((o :: p :: ps).map (fun x => '\n' :: x))
        = ('\n' :: o) ++ ',' :: List.intercalate [','] ((p :: ps).map (fun x => '\n' :: x)) := by
      simp only [List.map_cons]
      exact intercalate_cons_cons _ _ _ _
    rw [e1, List.append_assoc, List.cons_append, List.cons_append, ← ih1]
    simp

theorem json_elems_ne_nil (o : CStr) (os : List CStr) : json_elems (o :: os) ≠ [] := by
  cases os <;> simp [json_elems]

theorem json_elems_length (os : List CStr) : (json_elems os).length = os.length := by
  induction os with
  | nil => rfl
  | cons o os ih =>
    cases os with
    | nil => rfl
    | cons p ps => simp only [json_elems, List.length_cons] at ih ⊢; omega

theorem json_elems_intercalate (o : CStr) (os : List CStr) :
    List.intercalate [','] (json_elems (o :: os))
      = List.intercalate [','] ((o :: os).map (fun x => '\n' :: x)) ++ ['\n'] := by
  induction os generalizing o with
  | nil => simp [json_elems, intercalate_single]
  | cons p ps ih =>
    have ih1 := ih p
    have e0 : json_elems (o :: p :: ps) = ('\n' :: o) :: json_elems (p :: ps) := rfl
    have e1 : List.intercalate [','] ((o :: p :: ps).map (fun x => '\n' :: x))
        = ('\n' :: o) ++ ',' :: List.intercalate [','] ((p :: ps).map (fun x => '\n' :: x)) := by
      simp only [List.map_cons]
      exact intercalate_cons_cons _ _ _ _
    rw [e0, intercalate_cons_of_ne_nil _ _ _ (json_elems_ne_nil p ps), ih1, e1]
    simp

theorem json_elems_objects (os : List CStr) (ho : ∀ o ∈ os, JsonObject o) :
    ∀ e ∈ json_elems os, ∃ a o b, json_ws a = true ∧ JsonObject o ∧ json_ws b = true
      ∧ e = a ++ o ++ b := by
  induction os with
  | nil => intro e he; simp [json_elems] at he
  | cons o os ih =>
    have ho1 := ho o (List.mem_cons_self _ _)
    have hos : ∀ p ∈ os, JsonObject p := fun p hp => ho p (List.mem_cons_of_mem _ hp)
    cases os with
    | nil =>
      intro e he
      simp only [json_elems, List.mem_singleton] at he
      exact ⟨['\n'], o, ['\n'], by decide, ho1, by decide, by simp [he]⟩
    | cons p ps =>
      intro e he
      simp only [json_elems, List.mem_cons] at he
      rcases he with he | he
      · exact ⟨['\n'], o, [], by decide, ho1, by decide, by simp [he]⟩
      · exact ih hos e (by simpa [json_elems] using he)

theorem file_content_is_array (objs : List CStr) (ho : ∀ o ∈ objs, JsonObject o) :
    JsonArrayOfObjects objs.length (strip_final_comma
      ("[\n".toList ++ (objs.map (fun o => o ++ ",\n".toList)).flatten ++ "]".toList)) := by
  cases objs with
  | nil =>
    left
    exact ⟨rfl, ['\n'], by decide, by decide⟩
  | cons o os =>
    right
    refine ⟨json_elems (o :: os), json_elems_ne_nil o os, json_elems_length _,
      json_elems_objects _ ho, ?_⟩
    have h1 : "[\n".toList ++ ((o :: os).map (fun o => o ++ ",\n".toList)).flatten ++ "]".toList
        = ('[' :: List.intercalate [','] ((o :: os).map (fun x => '\n' :: x)))
          ++ [',', '\n', ']'] := by
      have h2 := records_flatten o os
      have h3 : "[\n".toList ++ ((o :: os).map (fun o => o ++ ",\n".toList)).flatten
          = '[' :: ('\n' :: ((o :: os).map (fun x => x ++ ",\n".toList)).flatten) := rfl
      rw [h3, h2]
      simp
    rw [h1, strip_final_comma_append, json_elems_intercalate]
    simp

theorem pad_head (a x : CStr) (c : Char) (r : CStr) (ha : json_ws a = true)
    (hc : (c == ' ' || c == '\n' || c == '\r' || c == '\t') = false)
    (heq : a ++ x = c :: r) : a = [] := by
  cases a with
  | nil => rfl
  | cons d a1 =>
    simp only [List.cons_append, List.cons.injEq] at heq
    simp only [json_ws, List.all_cons, Bool.and_eq_true] at ha
    rw [heq.1, hc] at ha
    exact absurd ha.1 (by decide)

theorem json_ws_reverse (b : CStr) (hb : json_ws b = true) : json_ws b.reverse = true := by
  simp only [json_ws, List.all_eq_true] at hb ⊢
  intro d hd
  exact hb d (List.mem_reverse.mp hd)

theorem padded_eq (a v b bad : CStr) (c1 c2 : Char) (r1 r2 : CStr)
    (h1 : bad = c1 :: r1) (h2 : bad.reverse = c2 :: r2)
    (hc1 : (c1 == ' ' || c1 == '\n' || c1 == '\r' || c1 == '\t') = false)
    (hc2 : (c2 == ' ' || c2 == '\n' || c2 == '\r' || c2 == '\t') = false)
    (ha : json_ws a = true) (hb : json_ws b = true) (heq : a ++ v ++ b = bad) : v = bad := by
  have ha0 : a = [] := by
    apply pad_head a (v ++ b) c1 r1 ha hc1
    rw [← h1, ← heq, List.append_assoc]
  have hb0 : b.reverse = [] := by
    apply pad_head b.reverse (v.reverse ++ a.reverse) c2 r2 (json_ws_reverse b hb) hc2
    rw [← h2, ← heq]
    simp
  have hb1 : b = [] := List.reverse_eq_nil_iff.mp hb0
  subst ha0
  subst hb1
  simpa using heq

theorem json_chars_split (p : CStr) (hp : ∀ c ∈ p, c ≠ '"' ∧ c ≠ '\\') :
    ∀ (k y z : CStr), json_chars k = true → k ++ '"' :: y = p ++ '"' :: z → k = p ∧ y = z := by
  induction p with
  | nil =>
    intro k y z hk heq
    cases k with
    | nil => simpa using heq
    | cons d k1 =>
      simp only [List.cons_append, List.nil_append, List.cons.injEq] at heq
      rw [heq.1] at hk
      unfold json_chars at hk
      simp at hk
  | cons c p1 ih =>
    intro k y z hk heq
    have hc := hp c (List.mem_cons_self _ _)
    have hp1 : ∀ d ∈ p1, d ≠ '"' ∧ d ≠ '\\' := fun d hd => hp d (List.mem_cons_of_mem _ hd)
    cases k with
    | nil =>
      simp only [List.cons_append, List.nil_append, List.cons.injEq] at heq
      exact absurd heq.1.symm hc.1
    | cons d k1 =>
      simp only [List.cons_append, List.cons.injEq] at heq
      obtain ⟨hd, hrest⟩ := heq
      subst hd
      have hk1 : json_chars k1 = true := by
        unfold json_chars at hk
        simp only [hc.2, if_false, Bool.and_eq_true] at hk
        exact hk.2
      obtain ⟨e1, e2⟩ := ih hp1 k1 y z hk1 hrest
      exact ⟨by rw [e1], e2⟩

theorem bad_record_is_not_json : ∀ s : CStr, JsonValue s →
    s ≠ "\x7b\"tracer\":\"\n\"\x7d".toList ∧ s ≠ "\"\n\"".toList := by
  intro s hs
  induction hs with
  | string s0 hj =>
    constructor
    · intro heq; cases heq
    · intro heq
      have h1 : s0 = ['\n'] := by
        have h2 : s0 ++ ['"'] = ['\n'] ++ ['"'] := by
          simpa using heq
        exact List.append_cancel_right h2
      subst h1
      revert hj
      decide
  | number s0 hj =>
    constructor <;> (intro heq; subst heq; revert hj; decide)
  | literal_true => decide
  | literal_false => decide
  | literal_null => decide
  | empty_array a _ => constructor <;> (intro heq; cases heq)
  | array elems _ _ _ => constructor <;> (intro heq; cases heq)
  | empty_object a ha =>
    constructor
    · intro heq
      have h1 : a = "\"tracer\":\"\n\"".toList := by
        have h2 : a ++ ['\x7d'] = "\"tracer\":\"\n\"".toList ++ ['\x7d'] := by
          simpa using heq
        exact List.append_cancel_right h2
      subst h1
      revert ha
      decide
    · intro heq; cases heq
  | object members hne hk hv ih =>
    constructor
    · intro heq
      have h1 : List.intercalate [','] (members.map (fun m => m.1 ++ ':' :: m.2))
          = "\"tracer\":\"\n\"".toList := by
        have h2 : List.intercalate [','] (members.map (fun m => m.1 ++ ':' :: m.2)) ++ ['\x7d']
            = "\"tracer\":\"\n\"".toList ++ ['\x7d'] := by
          simpa using heq
        exact List.append_cancel_right h2
      cases members with
      | nil => exact hne rfl
      | cons m ms =>
        cases ms with
        | cons m1 ms1 =>
          have hcomma : ',' ∈ List.intercalate [',']
              ((m :: m1 :: ms1).map (fun m => m.1 ++ ':' :: m.2)) := by
            simp only [List.map_cons, intercalate_cons_cons]
            simp
          rw [h1] at hcomma
          revert hcomma
          decide
        | nil =>
          simp only [List.map_cons, List.map_nil, intercalate_single] at h1
          obtain ⟨a, k, b, ha, hkc, hb, hm⟩ := hk m (List.mem_singleton_self _)
          rw [hm] at h1
          have h1a : a ++ ('"' :: (k ++ '"' :: (b ++ ':' :: m.2)))
              = '"' :: "tracer\":\"\n\"".toList := by
            simpa using h1
          have ha0 : a = [] := pad_head a _ '"' _ ha (by decide) h1a
          subst ha0
          have h3 : k ++ '"' :: (b ++ ':' :: m.2) = "tracer".toList ++ '"' :: ":\"\n\"".toList := by
            have h4 : '"' :: (k ++ '"' :: (b ++ ':' :: m.2))
                = '"' :: ("tracer".toList ++ '"' :: ":\"\n\"".toList) := by
              simpa using h1
            exact List.tail_eq_of_cons_eq h4
          obtain ⟨_, h5⟩ := json_chars_split "tracer".toList (by decide) k _ _ hkc h3
          have hb0 : b = [] := pad_head b (':' :: m.2) ':' "\"\n\"".toList hb (by decide) h5
          subst hb0
          have h6 : m.2 = "\"\n\"".toList := by
            simpa using h5
          exact (ih m (List.mem_singleton_self _)).2 h6
    · intro heq; cases heq
  | padded a v b ha hb hv ih =>
    constructor
    · intro heq
      exact ih.1 (padded_eq a v b "\x7b\"tracer\":\"\n\"\x7d".toList '\x7b' '\x7d'
        "\"tracer\":\"\n\"\x7d".toList "\"\n\":\"recart\"\x7b".toList (by decide) (by decide)
        (by decide) (by decide) ha hb heq)
    · intro heq
      exact ih.2 (padded_eq a v b "\"\n\"".toList '"' '"' "\n\"".toList "\n\"".toList
        (by decide) (by decide) (by decide) (by decide) ha hb heq)

/-! ## Lemmas on concurrent callers -/

/-- C1: when the token list has a token other than the marker and every token
is the marker itself or does not begin with it, trace_append_v writes the
args value as a bracketed list, without spaces, of the tokens that are not
the marker, in their order, each verbatim when the token right before it is
the marker and between double quotes otherwise. -/
theorem args_quoted_unless_after_marker (h : Host) (T : CStr) (clazz : Option jobject)
    (C F R : Option CStr) (toks : List CStr) (rest : va_list) (written : List CStr)
    (hclass : class_name h clazz = some C)
    (hsome : ∃ t ∈ toks, t ≠ h.TRACE_NEXT_ARG_UNQUOTED_TAG)
    (hexact : ∀ t ∈ toks, t = h.TRACE_NEXT_ARG_UNQUOTED_TAG
      ∨ ¬ h.TRACE_NEXT_ARG_UNQUOTED_TAG <+: t) :
    trace_append_v h (some T) clazz F R (toks.map some ++ none :: rest) (open_world written)
      = Res.ret rest (open_world (written ++ [record_head T F C R ++ ", \"args\":".toList
          ++ args_array (arg_values (fun t => decide (t = h.TRACE_NEXT_ARG_UNQUOTED_TAG)) toks)
          ++ "\x7d,\n".toList])) := by
  have hm : ∀ t ∈ toks, is_unquoted_tag h t = decide (t = h.TRACE_NEXT_ARG_UNQUOTED_TAG) := by
    intro t ht
    rcases hexact t ht with heq | hnp
    · have : is_unquoted_tag h t = true := (is_unquoted_tag_iff h t).mpr (heq ▸ List.prefix_refl _)
      rw [this]
      simp [heq]
    · have h1 : is_unquoted_tag h t ≠ true := fun hc => hnp ((is_unquoted_tag_iff h t).mp hc)
      have h2 : t ≠ h.TRACE_NEXT_ARG_UNQUOTED_TAG := fun hc => hnp (hc ▸ List.prefix_refl _)
      simp [h1, h2]
  obtain ⟨t, ht, hne⟩ := hsome
  exact trace_append_v_array h T clazz C F R toks rest written _ hclass hm ⟨t, ht, by simp [hne]⟩

/-- C1 at the list a, marker, 1, b of the demo host: the args value is
`["a",1,"b"]`. -/
theorem args_quoted_unless_after_marker_witness :
    class_name demo_host none = some none
    ∧ (∃ t ∈ ["a".toList, "#".toList, "1".toList, "b".toList],
        t ≠ demo_host.TRACE_NEXT_ARG_UNQUOTED_TAG)
    ∧ (∀ t ∈ ["a".toList, "#".toList, "1".toList, "b".toList],
        t = demo_host.TRACE_NEXT_ARG_UNQUOTED_TAG ∨ ¬ demo_host.TRACE_NEXT_ARG_UNQUOTED_TAG <+: t)
    ∧ trace_append_v demo_host (some "jni".toList) none none none
        [some "a".toList, some "#".toList, some "1".toList, some "b".toList, none] (open_world [])
      = Res.ret [] (open_world ["\x7b\"tracer\":\"jni\", \"args\":[\"a\",1,\"b\"]\x7d,\n".toList]) :=
  ⟨rfl, by decide, by decide,
    (args_quoted_unless_after_marker demo_host "jni".toList none none none none
      ["a".toList, "#".toList, "1".toList, "b".toList] [] [] rfl (by decide) (by decide)).trans
      (by decide)⟩

/-- C2 fails on the code: for a token list made of the marker only (one or
more times), whatever the other fields, the string handed to the sink has,
after the tracer, function, class and result fields in this order, the args
key followed by a lone closing bracket: neither an args array nor no text.
When the class does not resolve the call exits with the sink as it was. -/
theorem marker_only_list_gives_key_without_array (h : Host) (T : CStr)
    (clazz : Option jobject) (F R : Option CStr) (n : Nat) (rest : va_list)
    (written : List CStr) :
    trace_append_v h (some T) clazz F R
        ((List.replicate (n + 1) h.TRACE_NEXT_ARG_UNQUOTED_TAG).map some ++ none :: rest)
        (open_world written)
      = match class_name h clazz with
        | some C => Res.ret rest (open_world (written ++ ["\x7b\"tracer\":\"".toList ++ T
            ++ "\"".toList ++ opt_field "function" F ++ opt_field "class" C
            ++ opt_field "result" R ++ ", \"args\":]".toList ++ "\x7d,\n".toList]))
        | none => Res.exited 1 (open_world written) := by
  have hmark : is_unquoted_tag h h.TRACE_NEXT_ARG_UNQUOTED_TAG = true :=
    (is_unquoted_tag_iff h _).mpr (List.prefix_refl _)
  have hv : arg_values (is_unquoted_tag h)
      (List.replicate (n + 1) h.TRACE_NEXT_ARG_UNQUOTED_TAG) = [] := by
    rw [arg_values_eq_emitted]
    apply emitted_eq_nil
    intro t ht
    rw [List.eq_of_mem_replicate ht]
    exact hmark
  rw [trace_append_v_eq]
  cases class_name h clazz with
  | none => rfl
  | some C =>
    simp only [args_field, List.replicate_succ, hv, args_value, record_head]
    rw [← List.replicate_succ, hv]
    simp

/-- C7: when the first variadic slot is the NULL sentinel, the record is the
fields among tracer, function, class, result that are present, directly
followed by the closing brace, a comma and a newline; there is no args key,
and the slots after the sentinel are not read. -/
theorem no_args_key_for_empty_list (h : Host) (T : CStr) (clazz : Option jobject)
    (C F R : Option CStr) (rest : va_list) (written : List CStr)
    (hclass : class_name h clazz = some C) :
    trace_append_v h (some T) clazz F R (none :: rest) (open_world written)
      = Res.ret rest (open_world (written ++ ["\x7b\"tracer\":\"".toList ++ T ++ "\"".toList
          ++ opt_field "function" F ++ opt_field "class" C ++ opt_field "result" R
          ++ "\x7d,\n".toList])) := by
  have hm := trace_append_v_eq h T clazz F R [] rest written
  rw [hclass] at hm
  simpa [args_field, record_head] using hm

/-- C7 at a call of the demo host without arguments. -/
theorem no_args_key_for_empty_list_witness :
    class_name demo_host none = some none
    ∧ trace_append_v demo_host (some "jni".toList) none (some "GetVersion".toList) none
        [none, some "beyond".toList] (open_world [])
      = Res.ret [some "beyond".toList]
          (open_world ["\x7b\"tracer\":\"jni\", \"function\":\"GetVersion\"\x7d,\n".toList]) :=
  ⟨rfl,
    (no_args_key_for_empty_list demo_host "jni".toList none none (some "GetVersion".toList) none
      [some "beyond".toList] [] rfl).trans (by decide)⟩

/-- C5 fails: with a C library that writes `(null)` for a NULL string
argument, a call with a NULL tracer returns and hands a record to the sink; it
does not end in the guarantee failure. -/
theorem null_tracer_gives_a_record :
    trace_append_v demo_host none none none none [none] (open_world [])
      = Res.ret [] (open_world ["\x7b\"tracer\":\"(null)\"\x7d,\n".toList]) := by
  decide

/-- C5 as amended: trace_append_v has no check of the tracer. With a C
library that writes the text N for a NULL string argument, a call with a NULL
tracer does in every world what the call with tracer N does (so it exits
through the guarantee failure only when the class does not resolve), and
without a class reference and with the sentinel as first slot it returns
after handing the record with tracer N to the sink. -/
theorem null_tracer_is_formatted_unchecked (h : Host) (N : CStr) (clazz : Option jobject)
    (F R : Option CStr) (hnull : h.printf_null = some N) :
    (∀ (args : va_list) (w : World),
        trace_append_v h none clazz F R args w = trace_append_v h (some N) clazz F R args w)
    ∧ ∀ (rest : va_list) (written : List CStr),
        trace_append_v h none none F R (none :: rest) (open_world written)
          = Res.ret rest (open_world (written ++ ["\x7b\"tracer\":\"".toList ++ N
              ++ "\"".toList ++ opt_field "function" F ++ opt_field "result" R
              ++ "\x7d,\n".toList])) := by
  constructor
  · intro args w
    exact trace_append_v_null_tracer h N clazz F R args w hnull
  · intro rest written
    rw [trace_append_v_null_tracer h N none F R _ _ hnull]
    have hm := trace_append_v_eq h N none F R [] rest written
    simpa [class_name, args_field, record_head, opt_field] using hm

/-- C5 as amended, for the demo host: a NULL tracer with function GetVersion
gives the record with tracer `(null)`, and with class handle 2, which does
not resolve, the call exits as the call with tracer `(null)` does. -/
theorem null_tracer_is_formatted_unchecked_witness :
    demo_host.printf_null = some "(null)".toList
    ∧ trace_append_v demo_host none none (some "GetVersion".toList) none [none]
        (open_world ["[\n".toList])
      = Res.ret [] (open_world ["[\n".toList,
          "\x7b\"tracer\":\"(null)\", \"function\":\"GetVersion\"\x7d,\n".toList])
    ∧ trace_append_v demo_host none (some 2) (some "GetVersion".toList) none [none]
        (open_world ["[\n".toList])
      = Res.exited 1 (open_world ["[\n".toList]) :=
  ⟨rfl,
    ((null_tracer_is_formatted_unchecked demo_host "(null)".toList none
      (some "GetVersion".toList) none rfl).2 [] ["[\n".toList]).trans (by decide),
    ((null_tracer_is_formatted_unchecked demo_host "(null)".toList (some 2)
      (some "GetVersion".toList) none rfl).1 [none] (open_world ["[\n".toList])).trans
      (by decide)⟩

/-- C6: a call with a non-NULL tracer and a sentinel in the variadic tail
either exits through the guarantee failure with the sink unchanged, or
returns after exactly one append of one complete record; and when a class
reference is present and GetObjectClass, the getName call, or
GetStringUTFChars returns NULL, the call exits through the guarantee failure
and leaves the world as it was. -/
theorem sink_gets_nothing_or_one_record (h : Host) (T : CStr) (clazz : Option jobject)
    (F R : Option CStr) (toks : List CStr) (rest : va_list) (written : List CStr) :
    (trace_append_v h (some T) clazz F R (toks.map some ++ none :: rest) (open_world written)
        = Res.exited 1 (open_world written)
      ∨ ∃ C, trace_append_v h (some T) clazz F R (toks.map some ++ none :: rest)
          (open_world written)
        = Res.ret rest (open_world (written ++
            [record_head T F C R ++ args_field h toks ++ "\x7d,\n".toList])))
    ∧ ∀ (c : jobject) (args : va_list) (w : World), clazz = some c →
        (h.GetObjectClass c = none
          ∨ h.CallObjectMethod c h.java_lang_Class_getName = none
          ∨ ∃ n, h.CallObjectMethod c h.java_lang_Class_getName = some n
              ∧ h.GetStringUTFChars n = none) →
        trace_append_v h (some T) clazz F R args w = Res.exited 1 w := by
  constructor
  · rw [trace_append_v_eq]
    cases class_name h clazz with
    | none => exact Or.inl rfl
    | some C => exact Or.inr ⟨C, rfl⟩
  · intro c args w hc hfail
    apply trace_append_v_class_fails
    subst hc
    simp only [class_name, resolve_class]
    rcases hfail with h1 | h2 | ⟨n, h2, h3⟩
    · simp [h1]
    · cases h.GetObjectClass c <;> simp [h2]
    · cases h.GetObjectClass c <;> simp [h2, h3]

/-- C6 for the demo host: class handle 3 resolves and one record is appended;
for class handle 2 GetStringUTFChars gives NULL and the call exits with the
sink as it was. -/
theorem sink_gets_nothing_or_one_record_witness :
    (∃ n, demo_host.CallObjectMethod 2 demo_host.java_lang_Class_getName = some n
        ∧ demo_host.GetStringUTFChars n = none)
    ∧ trace_append_v demo_host (some "jni".toList) (some 2) (some "FindClass".toList) none
        [some "x".toList, none] (open_world ["[\n".toList])
      = Res.exited 1 (open_world ["[\n".toList])
    ∧ (trace_append_v demo_host (some "jni".toList) (some 3) none none [none]
          (open_world ["[\n".toList])
        = Res.exited 1 (open_world ["[\n".toList])
      ∨ ∃ C, trace_append_v demo_host (some "jni".toList) (some 3) none none [none]
          (open_world ["[\n".toList])
        = Res.ret [] (open_world (["[\n".toList] ++
            [record_head "jni".toList none C none ++ args_field demo_host []
              ++ "\x7d,\n".toList]))) :=
  ⟨⟨202, by decide, by decide⟩,
    (sink_gets_nothing_or_one_record demo_host "jni".toList (some 2) (some "FindClass".toList)
      none [] [] []).2 2 [some "x".toList, none] (open_world ["[\n".toList]) rfl
      (Or.inr (Or.inr ⟨202, by decide, by decide⟩)),
    (sink_gets_nothing_or_one_record demo_host "jni".toList (some 3) none none [] []
      ["[\n".toList]).1⟩

/-- C8 fails: the token `#x` is not the marker `#`, yet it is not written and
the token after it is written without quotes. -/
theorem longer_token_is_taken_for_marker :
    "#x".toList ≠ demo_host.TRACE_NEXT_ARG_UNQUOTED_TAG
    ∧ trace_append_v demo_host (some "jni".toList) none none none
        [some "#x".toList, some "a".toList, none] (open_world [])
      = Res.ret [] (open_world ["\x7b\"tracer\":\"jni\", \"args\":[a]\x7d,\n".toList])
    ∧ trace_append_v demo_host (some "jni".toList) none none none
        [some "#x".toList, some "a".toList, none] (open_world [])
      ≠ Res.ret [] (open_world [record_head "jni".toList none none none ++ ", \"args\":".toList
          ++ args_array (arg_values
              (fun t => decide (t = demo_host.TRACE_NEXT_ARG_UNQUOTED_TAG))
              ["#x".toList, "a".toList])
          ++ "\x7d,\n".toList]) := by
  decide

/-- C8 as amended: a token acts as the marker exactly when it begins with the
marker text. For a token list with a token that does not begin with it, the
args array holds the tokens that do not begin with the marker text, in their
order, and every token that begins with it (the marker itself or a longer
token) is left out and makes the next argument unquoted. -/
theorem marker_is_tested_on_leading_text (h : Host) (T : CStr) (clazz : Option jobject)
    (C F R : Option CStr) (toks : List CStr) (rest : va_list) (written : List CStr)
    (hclass : class_name h clazz = some C)
    (hsome : ∃ t ∈ toks, ¬ h.TRACE_NEXT_ARG_UNQUOTED_TAG <+: t) :
    trace_append_v h (some T) clazz F R (toks.map some ++ none :: rest) (open_world written)
      = Res.ret rest (open_world (written ++ [record_head T F C R ++ ", \"args\":".toList
          ++ args_array (arg_values (fun t => decide (h.TRACE_NEXT_ARG_UNQUOTED_TAG <+: t)) toks)
          ++ "\x7d,\n".toList])) := by
  obtain ⟨t, ht, hnp⟩ := hsome
  exact trace_append_v_array h T clazz C F R toks rest written _ hclass
    (fun u _ => is_unquoted_tag_eq_decide h u) ⟨t, ht, by simp [hnp]⟩

/-- C8 as amended, at a list of the demo host with the marker, a longer token
that begins with it, and two plain tokens. -/
theorem marker_is_tested_on_leading_text_witness :
    class_name demo_host none = some none
    ∧ (∃ t ∈ ["p".toList, "#x".toList, "7".toList, "#".toList, "8".toList],
        ¬ demo_host.TRACE_NEXT_ARG_UNQUOTED_TAG <+: t)
    ∧ trace_append_v demo_host (some "jni".toList) none none none
        [some "p".toList, some "#x".toList, some "7".toList, some "#".toList, some "8".toList,
          none] (open_world [])
      = Res.ret [] (open_world ["\x7b\"tracer\":\"jni\", \"args\":[\"p\",7,8]\x7d,\n".toList]) :=
  ⟨rfl, by decide,
    (marker_is_tested_on_leading_text demo_host "jni".toList none none none none
      ["p".toList, "#x".toList, "7".toList, "#".toList, "8".toList] [] [] rfl
      (by decide)).trans (by decide)⟩

/-- C9 fails on the code: for a token list that is the marker alone, the
record has the args key followed by a lone closing bracket, with no opening
bracket; the slots after the sentinel are not read and the record ends with
the closing brace, a comma and a newline. -/
theorem lone_marker_gives_unopened_array (h : Host) (T : CStr) (rest : va_list)
    (written : List CStr) :
    trace_append_v h (some T) none none none
        (some h.TRACE_NEXT_ARG_UNQUOTED_TAG :: none :: rest) (open_world written)
      = Res.ret rest (open_world (written ++
          ["\x7b\"tracer\":\"".toList ++ T ++ "\", \"args\":]\x7d,\n".toList])) := by
  have hm := trace_append_v_eq h T none none none [h.TRACE_NEXT_ARG_UNQUOTED_TAG] rest written
  have hmark : is_unquoted_tag h h.TRACE_NEXT_ARG_UNQUOTED_TAG = true :=
    (is_unquoted_tag_iff h _).mpr (List.prefix_refl _)
  have hv : arg_values (is_unquoted_tag h) [h.TRACE_NEXT_ARG_UNQUOTED_TAG] = [] := by
    rw [arg_values_eq_emitted]
    exact emitted_eq_nil _ _ _ (by simp [hmark])
  simpa [class_name, args_field, hv, args_value, record_head, opt_field] using hm

/-- C3: after an Agent_OnLoad that returned JNI_OK, appending the records
r1..rn one after another with mtx_trace_print and then running
Agent_OnUnload leaves a closed file whose content is an opening bracket, a
newline, the records in order, and a closing bracket with nothing after it;
without records the content is `[\n]`, and for the single record of
trace_append with tracer jni, function newArray and the argument ok (a token
that does not begin with the marker text) it is the content of the
end-to-end scenario. -/
theorem file_is_bracketed_records (h : Host) (options : CStr) (w0 w1 : World)
    (records : List CStr) (hload : Agent_OnLoad h options w0 = Res.ret JNI_OK w1) :
    closed_file_content ((append_all records >>= fun _ => Agent_OnUnload) w1)
        = some ("[\n".toList ++ records.flatten ++ "]".toList)
      ∧ closed_file_content (Agent_OnUnload w1) = some "[\n]".toList
      ∧ (¬ h.TRACE_NEXT_ARG_UNQUOTED_TAG <+: "ok".toList →
          closed_file_content
            ((trace_append_v h (some "jni".toList) none (some "newArray".toList) none
                [some "ok".toList, none] >>= fun _ => Agent_OnUnload) w1)
          = some "[\n\x7b\"tracer\":\"jni\", \"function\":\"newArray\", \"args\":[\"ok\"]\x7d,\n]".toList) := by
  have hw := Agent_OnLoad_world h options w0 w1 JNI_OK hload
  subst hw
  refine ⟨?_, ?_, ?_⟩
  · rw [bind_apply, append_all_open]
    simp [closed_content_after_unload]
  · rw [closed_content_after_unload]
    rfl
  · intro hok
    have hc : class_name h none = some none := rfl
    have hok2 : ¬ h.TRACE_NEXT_ARG_UNQUOTED_TAG <+: ['o', 'k'] := hok
    have hm := trace_append_v_array h "jni".toList none none (some "newArray".toList) none
      ["ok".toList] [] ["[\n".toList] (fun t => decide (h.TRACE_NEXT_ARG_UNQUOTED_TAG <+: t)) hc
      (fun u _ => is_unquoted_tag_eq_decide h u)
      ⟨"ok".toList, List.mem_singleton_self _, by simpa using hok2⟩
    have hv : arg_values (fun t => decide (h.TRACE_NEXT_ARG_UNQUOTED_TAG <+: t)) ["ok".toList]
        = [quoted "ok".toList] := by
      simp [arg_values, prev_is_mark, List.filter, hok2]
    rw [hv] at hm
    rw [bind_apply]
    simp only [List.map_cons, List.map_nil, List.cons_append, List.nil_append] at hm
    rw [hm]
    simp only [closed_content_after_unload]
    decide

/-- C3 for the demo host loaded with `output=/tmp/t.json`: two records, and
the record of the end-to-end scenario. -/
theorem file_is_bracketed_records_witness :
    Agent_OnLoad demo_host "output=/tmp/t.json".toList initial_world
        = Res.ret JNI_OK (open_world ["[\n".toList])
    ∧ closed_file_content
        ((append_all ["\x7b\"tracer\":\"jni\"\x7d,\n".toList,
            "\x7b\"tracer\":\"reflect\"\x7d,\n".toList] >>= fun _ => Agent_OnUnload)
          (open_world ["[\n".toList]))
      = some "[\n\x7b\"tracer\":\"jni\"\x7d,\n\x7b\"tracer\":\"reflect\"\x7d,\n]".toList
    ∧ ¬ demo_host.TRACE_NEXT_ARG_UNQUOTED_TAG <+: "ok".toList
    ∧ closed_file_content
        ((trace_append_v demo_host (some "jni".toList) none (some "newArray".toList) none
            [some "ok".toList, none] >>= fun _ => Agent_OnUnload) (open_world ["[\n".toList]))
      = some "[\n\x7b\"tracer\":\"jni\", \"function\":\"newArray\", \"args\":[\"ok\"]\x7d,\n]".toList :=
  ⟨by decide,
    ((file_is_bracketed_records demo_host "output=/tmp/t.json".toList initial_world
      (open_world ["[\n".toList])
      ["\x7b\"tracer\":\"jni\"\x7d,\n".toList, "\x7b\"tracer\":\"reflect\"\x7d,\n".toList]
      (by decide)).1).trans (by decide),
    by decide,
    (file_is_bracketed_records demo_host "output=/tmp/t.json".toList initial_world
      (open_world ["[\n".toList]) [] (by decide)).2.2 (by decide)⟩

/-- C4 fails: a tracer that is a line feed gives a record whose object spans
two lines and is not a JSON value. -/
theorem record_with_line_feed_is_not_json :
    trace_append_v demo_host (some "\n".toList) none none none [none] (open_world [])
        = Res.ret [] (open_world ["\x7b\"tracer\":\"\n\"\x7d,\n".toList])
      ∧ '\n' ∈ "\x7b\"tracer\":\"\n\"\x7d".toList
      ∧ ¬ JsonValue "\x7b\"tracer\":\"\n\"\x7d".toList :=
  ⟨by decide, by decide, fun hv => (bad_record_is_not_json _ hv).1 rfl⟩

/-- C4 as amended: trace_append_v does no escaping. For N calls whose tracer,
function, class name, result and quoted tokens are contents of JSON strings
as they stand, whose unquoted tokens are JSON values on one line, whose class
resolves, and whose token list is empty or has a token that does not begin
with the marker text, every call returns, every record is a JSON object on
one line followed by a comma and a newline, and the file between load and
unload, with its final trailing comma taken out, is a JSON array of exactly N
objects. -/
theorem records_are_json_objects (h : Host) (options : CStr) (w0 w1 : World)
    (calls : List Call) (hload : Agent_OnLoad h options w0 = Res.ret JNI_OK w1)
    (hsafe : ∀ c ∈ calls, json_safe_call h c) :
    ∃ objs : List CStr, objs.length = calls.length
      ∧ (∀ o ∈ objs, JsonObject o ∧ '\n' ∉ o)
      ∧ run_calls h calls w1
          = Res.ret () (open_world ("[\n".toList :: objs.map (fun o => o ++ ",\n".toList)))
      ∧ ∃ content,
          closed_file_content ((run_calls h calls >>= fun _ => Agent_OnUnload) w1) = some content
          ∧ JsonArrayOfObjects calls.length (strip_final_comma content) := by
  have hw := Agent_OnLoad_world h options w0 w1 JNI_OK hload
  subst hw
  have hcls : ∀ c ∈ calls, ∃ C, class_name h c.clazz = some C := by
    intro c hc
    obtain ⟨_, _, ⟨C, hC, _⟩, _⟩ := hsafe c hc
    exact ⟨C, hC⟩
  have hrun := run_calls_open h calls ["[\n".toList] hcls
  have hobj : ∀ o ∈ calls.map (fun c => call_object h c (call_class h c)),
      JsonObject o ∧ '\n' ∉ o := by
    intro o ho
    obtain ⟨c, hc, rfl⟩ := List.mem_map.mp ho
    exact call_object_json h c (hsafe c hc)
  refine ⟨calls.map (fun c => call_object h c (call_class h c)), by simp, hobj, ?_, ?_⟩
  · rw [hrun]
    simp [List.map_map, Function.comp_def]
  · refine ⟨"[\n".toList ++ ((calls.map (fun c => call_object h c (call_class h c))).map
        (fun o => o ++ ",\n".toList)).flatten ++ "]".toList, ?_, ?_⟩
    · rw [bind_apply, hrun]
      simp only [closed_content_after_unload]
      simp [List.map_map, Function.comp_def]
    · have hfa := file_content_is_array _ (fun o ho => (hobj o ho).1)
      simpa using hfa

/-- C4 as amended, for the demo host and one call with a quoted and an
unquoted argument. -/
theorem records_are_json_objects_witness :
    Agent_OnLoad demo_host "output=/tmp/t.json".toList initial_world
        = Res.ret JNI_OK (open_world ["[\n".toList])
    ∧ (∀ c ∈ [demo_call],
        json_safe_call demo_host c)
    ∧ ∃ objs : List CStr, objs.length = 1
        ∧ (∀ o ∈ objs, JsonObject o ∧ '\n' ∉ o)
        ∧ run_calls demo_host [demo_call] (open_world ["[\n".toList])
          = Res.ret () (open_world ("[\n".toList :: objs.map (fun o => o ++ ",\n".toList)))
        ∧ ∃ content,
            closed_file_content
              ((run_calls demo_host [demo_call] >>= fun _ => Agent_OnUnload)
                (open_world ["[\n".toList])) = some content
            ∧ JsonArrayOfObjects 1 (strip_final_comma content) := by
  have hs : ∀ c ∈ [demo_call],
      json_safe_call demo_host c := by
    intro c hc
    rw [List.mem_singleton] at hc
    subst hc
    refine ⟨by decide, ?_, ⟨none, rfl, fun n hn => (by cases hn)⟩, fun R hR => (by cases hR),
      Or.inr ⟨"ok".toList, by decide, by decide⟩, ?_⟩
    · intro F hF
      cases hF
      decide
    · intro pt hpt hb
      simp only [demo_call, List.map_cons, List.map_nil, List.zip_cons_cons, List.zip_nil_right,
        List.mem_cons, List.mem_singleton, List.not_mem_nil, or_false] at hpt
      rcases hpt with rfl | rfl | rfl
      · exact ⟨fun hp => absurd hp (by decide), fun _ => by decide⟩
      · exact absurd hb (by decide)
      · exact ⟨fun _ => ⟨JsonValue.number _ (by decide), by decide⟩,
          fun hp => absurd hp (by decide)⟩
  exact ⟨by decide, hs,
    records_are_json_objects demo_host "output=/tmp/t.json".toList initial_world
      (open_world ["[\n".toList]) _ (by decide) hs⟩

end TraceAgent
